import Mathlib

/-!
Verification of the phrase-grammar compiler (`cicd/toml2grammar.py`, with the
quoting function of the historical variant `cicd/tsv2grammar.py`).

The Python code is shallowly embedded: Python strings are Lean `String`s
compared by code points (`Char.toNat`), Python `sorted` is a stable sort with
respect to that order (modelled by `List.mergeSort`), Python exceptions are
`Except` values, and the `defaultdict(set)` category indexes are association
lists whose per-category sets are duplicate-free lists.  Python's `str.lower`
is modelled by per-character `Char.toLower` (exact on the ASCII range used by
grammar specifications).
-/

/-- Python `<` on single characters: comparison of code points. -/
def charLt (a b : Char) : Bool := a.toNat < b.toNat

/-- Generic lexicographic `<` on lists, as Python compares lists/tuples:
a strict prefix is smaller, otherwise the first differing position decides. -/
def lexLt (lt : α → α → Bool) : List α → List α → Bool
  | [], [] => false
  | [], _ :: _ => true
  | _ :: _, [] => false
  | x :: xs, y :: ys =>
    if lt x y then true
    else if lt y x then false
    else lexLt lt xs ys

/-- Python `<` on strings: lexicographic comparison of code-point sequences. -/
def strLt (a b : String) : Bool := lexLt charLt a.data b.data

/-- Python `<=` for a strict total order `lt`: `a <= b` iff `not (b < a)`. -/
def ltToLe (lt : α → α → Bool) (a b : α) : Bool := !(lt b a)

/-- Python `<=` on strings. -/
def strLe (a b : String) : Bool := ltToLe strLt a b

/-- Python `<` on tuples of strings (the `options` component of a
`SentencePart`): lexicographic over string comparison. -/
def optsLt (a b : List String) : Bool := lexLt strLt a b

/-- Python `<=` on tuples of strings. -/
def optsLe (a b : List String) : Bool := ltToLe optsLt a b

section LexLemmas

variable {lt : α → α → Bool}

theorem lexLt_trans
    (ltTrans : ∀ a b c, lt a b = true → lt b c = true → lt a c = true)
    (ltConn : ∀ a b, lt a b = false → lt b a = false → a = b) :
    ∀ a b c, lexLt lt a b = true → lexLt lt b c = true → lexLt lt a c = true := by
  intro a
  induction a with
  | nil =>
    intro b c hab hbc
    cases b with
    | nil => simp [lexLt] at hab
    | cons y ys =>
      cases c with
      | nil => simp [lexLt] at hbc
      | cons z zs => simp [lexLt]
  | cons x xs ih =>
    intro b c hab hbc
    cases b with
    | nil => simp [lexLt] at hab
    | cons y ys =>
      cases c with
      | nil => simp [lexLt] at hbc
      | cons z zs =>
        simp only [lexLt] at hab hbc ⊢
        cases hxy : lt x y with
        | true =>
          cases hyz : lt y z with
          | true => simp [ltTrans x y z hxy hyz]
          | false =>
            cases hzy : lt z y with
            | true => simp [hyz, hzy] at hbc
            | false =>
              have : y = z := ltConn y z hyz hzy
              subst this
              simp [hxy]
        | false =>
          cases hyx : lt y x with
          | true => simp [hxy, hyx] at hab
          | false =>
            have hxy' : x = y := ltConn x y hxy hyx
            subst hxy'
            simp [hxy] at hab
            cases hxz : lt x z with
            | true => simp [hxz]
            | false =>
              cases hzx : lt z x with
              | true => simp [hxz, hzx] at hbc
              | false =>
                simp [hxz, hzx] at hbc ⊢
                exact ih ys zs hab hbc

theorem lexLt_conn
    (ltConn : ∀ a b, lt a b = false → lt b a = false → a = b) :
    ∀ a b, lexLt lt a b = false → lexLt lt b a = false → a = b := by
  intro a
  induction a with
  | nil =>
    intro b hab _
    cases b with
    | nil => rfl
    | cons y ys => simp [lexLt] at hab
  | cons x xs ih =>
    intro b hab hba
    cases b with
    | nil => simp [lexLt] at hba
    | cons y ys =>
      simp only [lexLt] at hab hba
      cases hxy : lt x y with
      | true => simp [hxy] at hab
      | false =>
        cases hyx : lt y x with
        | true => simp [hxy, hyx] at hba
        | false =>
          have hx : x = y := ltConn x y hxy hyx
          subst hx
          simp [hxy] at hab hba
          rw [ih ys hab hba]

theorem lexLt_irrefl
    (ltIrrefl : ∀ a, lt a a = false) :
    ∀ a, lexLt lt a a = false := by
  intro a
  induction a with
  | nil => simp [lexLt]
  | cons x xs ih => simp [lexLt, ltIrrefl x, ih]

end LexLemmas

theorem charLt_trans : ∀ a b c : Char, charLt a b = true → charLt b c = true →
    charLt a c = true := by
  intro a b c hab hbc
  simp only [charLt, decide_eq_true_eq] at *
  omega

theorem charLt_conn : ∀ a b : Char, charLt a b = false → charLt b a = false → a = b := by
  intro a b hab hba
  simp only [charLt, decide_eq_false_iff_not, not_lt] at hab hba
  have h : a.toNat = b.toNat := le_antisymm hba hab
  exact Char.eq_of_val_eq (UInt32.ext h)

theorem charLt_irrefl : ∀ a : Char, charLt a a = false := by
  intro a
  simp [charLt]

theorem strLt_trans : ∀ a b c : String, strLt a b = true → strLt b c = true →
    strLt a c = true := by
  intro a b c
  exact lexLt_trans charLt_trans charLt_conn a.data b.data c.data

theorem strLt_conn : ∀ a b : String, strLt a b = false → strLt b a = false → a = b := by
  intro a b hab hba
  have h : a.data = b.data := lexLt_conn charLt_conn a.data b.data hab hba
  cases a; cases b
  exact congrArg String.mk h

theorem strLt_irrefl : ∀ a : String, strLt a a = false :=
  fun a => lexLt_irrefl charLt_irrefl a.data

section LeLemmas

variable {lt : α → α → Bool}

theorem ltToLe_trans
    (ltTrans : ∀ a b c, lt a b = true → lt b c = true → lt a c = true)
    (ltConn : ∀ a b, lt a b = false → lt b a = false → a = b) :
    ∀ a b c, ltToLe lt a b = true → ltToLe lt b c = true → ltToLe lt a c = true := by
  intro a b c hab hbc
  simp only [ltToLe, Bool.not_eq_true'] at *
  cases hca : lt c a with
  | false => rfl
  | true =>
    cases hbc' : lt b c with
    | true =>
      have : lt b a = true := ltTrans b c a hbc' hca
      rw [this] at hab
      exact hab
    | false =>
      have hbeq : b = c := ltConn b c hbc' hbc
      subst hbeq
      rw [hca] at hab
      exact hab

theorem ltToLe_total
    (ltAsymm : ∀ a b, lt a b = true → lt b a = false) :
    ∀ a b, (ltToLe lt a b || ltToLe lt b a) = true := by
  intro a b
  simp only [ltToLe, Bool.or_eq_true, Bool.not_eq_true']
  cases h : lt b a with
  | false => exact Or.inl rfl
  | true => exact Or.inr (ltAsymm b a h)

theorem ltToLe_antisymm
    (ltConn : ∀ a b, lt a b = false → lt b a = false → a = b) :
    ∀ a b, ltToLe lt a b = true → ltToLe lt b a = true → a = b := by
  intro a b hab hba
  simp only [ltToLe, Bool.not_eq_true'] at hab hba
  exact ltConn a b hba hab

end LeLemmas

theorem ltAsymm_of_trans_irrefl {lt : α → α → Bool}
    (ltTrans : ∀ a b c, lt a b = true → lt b c = true → lt a c = true)
    (ltIrrefl : ∀ a, lt a a = false) :
    ∀ a b, lt a b = true → lt b a = false := by
  intro a b hab
  cases h : lt b a with
  | false => rfl
  | true =>
    have := ltTrans a b a hab h
    rw [ltIrrefl a] at this
    exact absurd this (by simp)

theorem strLe_trans : ∀ a b c : String, strLe a b = true → strLe b c = true →
    strLe a c = true :=
  ltToLe_trans strLt_trans strLt_conn

theorem strLe_total : ∀ a b : String, (strLe a b || strLe b a) = true :=
  ltToLe_total (ltAsymm_of_trans_irrefl strLt_trans strLt_irrefl)

theorem strLe_antisymm : ∀ a b : String, strLe a b = true → strLe b a = true → a = b :=
  ltToLe_antisymm strLt_conn

theorem optsLt_trans : ∀ a b c, optsLt a b = true → optsLt b c = true →
    optsLt a c = true :=
  lexLt_trans strLt_trans strLt_conn

theorem optsLt_conn : ∀ a b, optsLt a b = false → optsLt b a = false → a = b :=
  lexLt_conn strLt_conn

theorem optsLt_irrefl : ∀ a, optsLt a a = false :=
  lexLt_irrefl strLt_irrefl

theorem optsLe_trans : ∀ a b c, optsLe a b = true → optsLe b c = true →
    optsLe a c = true :=
  ltToLe_trans optsLt_trans optsLt_conn

theorem optsLe_total : ∀ a b, (optsLe a b || optsLe b a) = true :=
  ltToLe_total (ltAsymm_of_trans_irrefl optsLt_trans optsLt_irrefl)

theorem optsLe_antisymm : ∀ a b, optsLe a b = true → optsLe b a = true → a = b :=
  ltToLe_antisymm optsLt_conn

/-! ## Data model

The decoded TOML grammar specification (`toml2grammar.py` reads it with
`toml.load`).  Fields the validator or compiler accesses with `dict.get`
are `Option`s; `compile_grammar` accesses `metadata["flags"]` and
`metadata["glue"]` unconditionally, so those lookups are modelled as
fallible on the `Option` fields. -/

/-- `SentencePart` (toml2grammar.py lines 9-11): a phrase variant,
`text` plus the resolved, sorted tuple of option names. -/
structure SentencePart where
  text : String
  options : List String
deriving DecidableEq, Repr

/-- One element of the `entries` list of the TOML document. -/
structure Entry where
  category : String
  lefts : List String
  rights : List String
  lefts_flags : Option (List (List String))
  rights_flags : Option (List (List String))
  lefts_add_categories : Option (List (List String))
  rights_add_categories : Option (List (List String))
deriving DecidableEq, Repr

/-- The flag-name to option-name mapping of `metadata["flags"]`
(a Python dict with distinct keys). -/
abbrev FlagTable : Type := List (String × String)

/-- The `metadata` table of the TOML document.  `flags` and `glue` may be
absent: `validate_grammar` reads `flags` with `.get("flags", {})` and never
reads `glue`, while `compile_grammar` reads both with mandatory indexing. -/
structure Metadata where
  top_level_categories : List String
  flags : Option FlagTable
  glue : Option String

/-- A whole decoded grammar TOML document. -/
structure GrammarSpec where
  metadata : Metadata
  entries : List Entry

/-- Insertion into an ascending list, the helper of `pySort`. -/
def pyInsert (le : α → α → Bool) (x : α) : List α → List α
  | [] => [x]
  | y :: ys => if le x y then x :: y :: ys else y :: pyInsert le x ys

/-- Python `sorted`: the ascending permutation with respect to a total
order `le` (for the antisymmetric orders used here the sorted permutation
is unique, so the choice of algorithm is immaterial). -/
def pySort (le : α → α → Bool) : List α → List α
  | [] => []
  | x :: xs => pyInsert le x (pySort le xs)

/-- Python `sorted` on a list of strings: ascending by code-point
comparison. -/
def pySortedStr (l : List String) : List String := pySort strLe l

/-- Python `<` on `SentencePart` named tuples: lexicographic on
`(text, options)`, exactly as Python compares tuples. -/
def spLt (a b : SentencePart) : Bool :=
  if strLt a.text b.text then true
  else if strLt b.text a.text then false
  else optsLt a.options b.options

/-- Python `<=` on `SentencePart`. -/
def spLe (a b : SentencePart) : Bool := ltToLe spLt a b

/-- Python `sorted` on a collection of `SentencePart`s. -/
def pySortedSP (l : List SentencePart) : List SentencePart := pySort spLe l

/-- Python `"".join` / `str.join` with an empty separator, in the
structural form used by the proofs. -/
def pyJoin : List String → String
  | [] => ""
  | x :: rest => x ++ pyJoin rest

/-- Python `str.lower`, applied character by character. -/
def pyLower (s : String) : String := ⟨s.data.map Char.toLower⟩

/-- `[l.lower() for l in xs]` (toml2grammar.py lines 60 and 63). -/
def lowerList (xs : List String) : List String := xs.map pyLower

/-! ## Literal quoting (toml2grammar.py lines 14-24, tsv2grammar.py 16-26) -/

/-- Loop body of `quote_grammar` (toml2grammar.py lines 16-22): the backslash
case is tested first, then the double quote. -/
def quote_grammar_chars : List Char → List String
  | [] => []
  | c :: rest =>
    (if c = '\\' then "\\\\" else if c = '"' then "\\\"" else String.mk [c]) ::
      quote_grammar_chars rest

/-- `quote_grammar` (toml2grammar.py lines 14-24): wrap in double quotes,
escaping backslash and double quote. -/
def quote_grammar (s : String) : String :=
  pyJoin (("\"" :: quote_grammar_chars s.data) ++ ["\""])

/-- Loop body of `grammar_quote` (tsv2grammar.py lines 18-24): the double
quote case is tested first, then the backslash. -/
def grammar_quote_chars : List Char → List String
  | [] => []
  | c :: rest =>
    (if c = '"' then "\\\"" else if c = '\\' then "\\\\" else String.mk [c]) ::
      grammar_quote_chars rest

/-- `grammar_quote` (tsv2grammar.py lines 16-26), the TSV variant of the
quoting function. -/
def grammar_quote (s : String) : String :=
  pyJoin (("\"" :: grammar_quote_chars s.data) ++ ["\""])

/-- The quoting rule in the words of the specification: wrap the text in
double quotes; replace a backslash by two backslashes and a double quote by
a backslash followed by a double quote; leave every other character alone. -/
def spec_escape_char (c : Char) : List Char :=
  if c = '\\' then ['\\', '\\'] else if c = '"' then ['\\', '"'] else [c]

/-- The specification's literal quoting function. -/
def spec_quote (s : String) : String :=
  ⟨('"' :: s.data.flatMap spec_escape_char) ++ ['"']⟩

/-! ## Validation (toml2grammar.py lines 32-103)

Each `raise ValueError(...)` site becomes one constructor of `VErr`; the
constructor name records the literal prefix of the Python message
(`"sorting error"`, `"flag error"`, `"category error"`, or none), which is
the only way a caller can discriminate the error kinds. -/

/-- The `ValueError`s raised by validation, one constructor per raise site. -/
inductive VErr where
  /-- line 44: `"metadata.top_level_categories is not sorted"` (no kind prefix). -/
  | topLevelNotSorted
  /-- line 35: `"sorting error: flag list ... not sorted"`. -/
  | sortingFlagListNotSorted
  /-- line 38: `"flag error: unknown flag ..."`. -/
  | flagUnknown
  /-- line 53: `"sorting error: ... is sorted after element with category ..."`. -/
  | sortingCategoryOrder
  /-- line 62: `"sorting error: lefts ... are not sorted"`. -/
  | sortingLeftsNotSorted
  /-- line 64: `"sorting error: rights ... are not sorted"`. -/
  | sortingRightsNotSorted
  /-- line 70: `"sorting error: left ... sorted after ..."`. -/
  | sortingFirstLeft
  /-- line 76: `"flag error: lefts ... have ... flags"`. -/
  | flagLeftsLength
  /-- line 82: `"flag error: rights ... have ... flags"`. -/
  | flagRightsLength
  /-- line 88: `"category error: lefts ... have ... additional categories"`. -/
  | categoryLeftsAddLength
  /-- lines 91 and 101: `"category error: additional category list ... is not sorted"`. -/
  | categoryAddListNotSorted
  /-- line 93: `"category error: lefts ... already the base category"`. -/
  | categoryLeftsAddSelf
  /-- line 98: `"flag error: rights ... have ... additional categories"` —
  note the `flag error` prefix on an add-categories length mismatch. -/
  | flagRightsAddLength
  /-- line 103: `"category error: rights ... already the base category"`. -/
  | categoryRightsAddSelf
deriving DecidableEq, Repr

/-- The discriminable kinds of validation errors: the literal prefix of the
`ValueError` message. -/
inductive ErrKind where
  | sorting
  | flag
  | category
  | plain
deriving DecidableEq, Repr

/-- The message-prefix kind of each raise site. -/
def msgKind : VErr → ErrKind
  | .topLevelNotSorted => .plain
  | .sortingFlagListNotSorted => .sorting
  | .flagUnknown => .flag
  | .sortingCategoryOrder => .sorting
  | .sortingLeftsNotSorted => .sorting
  | .sortingRightsNotSorted => .sorting
  | .sortingFirstLeft => .sorting
  | .flagLeftsLength => .flag
  | .flagRightsLength => .flag
  | .categoryLeftsAddLength => .category
  | .categoryAddListNotSorted => .category
  | .categoryLeftsAddSelf => .category
  | .flagRightsAddLength => .flag
  | .categoryRightsAddSelf => .category

/-- Decidable equality of `Except` results, used to evaluate validation
outcomes on concrete inputs. -/
instance exceptDecEq [DecidableEq ε] [DecidableEq α] : DecidableEq (Except ε α) :=
  fun a b =>
    match a, b with
    | Except.ok x, Except.ok y =>
      if h : x = y then isTrue (h ▸ rfl) else isFalse (fun hc => h (Except.ok.inj hc))
    | Except.error x, Except.error y =>
      if h : x = y then isTrue (h ▸ rfl) else isFalse (fun hc => h (Except.error.inj hc))
    | Except.ok _, Except.error _ => isFalse (fun hc => Except.noConfusion hc)
    | Except.error _, Except.ok _ => isFalse (fun hc => Except.noConfusion hc)

/-- Key membership `flag in all_flags` of the Python flag dict. -/
def flagKnown (all_flags : FlagTable) (flag : String) : Bool :=
  (all_flags.map Prod.fst).contains flag

/-- Inner loop of `validate_flags` (lines 36-38): every flag of one flag
list must be a key of `all_flags`. -/
def validate_flag_names (all_flags : FlagTable) : List String → Except VErr Unit
  | [] => Except.ok ()
  | f :: rest =>
    if flagKnown all_flags f then validate_flag_names all_flags rest
    else Except.error VErr.flagUnknown

/-- `validate_flags` (toml2grammar.py lines 32-38): each flag list must be
sorted and contain only declared flags. -/
def validate_flags (all_flags : FlagTable) : List (List String) → Except VErr Unit
  | [] => Except.ok ()
  | flag_list :: rest =>
    if flag_list ≠ pySortedStr flag_list then Except.error VErr.sortingFlagListNotSorted
    else
      match validate_flag_names all_flags flag_list with
      | Except.error er => Except.error er
      | Except.ok () => validate_flags all_flags rest

/-- Lines 74-77 resp. 80-83: optional parallel flag lists must match the
phrase-list length, then be valid flag lists. -/
def check_flags_entry (all_flags : FlagTable) (xs : List String)
    (fl : Option (List (List String))) (lenErr : VErr) : Except VErr Unit :=
  match fl with
  | none => Except.ok ()
  | some fls =>
    if fls.length ≠ xs.length then Except.error lenErr
    else validate_flags all_flags fls

/-- Inner loop of lines 89-93 resp. 99-103: each additional-category list
must be sorted and must not contain the base category. -/
def check_add_category_lists (category : String) (sortErr selfErr : VErr) :
    List (List String) → Except VErr Unit
  | [] => Except.ok ()
  | categs :: rest =>
    if categs ≠ pySortedStr categs then Except.error sortErr
    else if categs.any (fun c => c = category) then Except.error selfErr
    else check_add_category_lists category sortErr selfErr rest

/-- Lines 85-93 resp. 95-103: optional parallel additional-category lists. -/
def check_add_categories (category : String) (xs : List String)
    (ac : Option (List (List String))) (lenErr sortErr selfErr : VErr) :
    Except VErr Unit :=
  match ac with
  | none => Except.ok ()
  | some acs =>
    if acs.length ≠ xs.length then Except.error lenErr
    else check_add_category_lists category sortErr selfErr acs

/-- Lines 73-103: the four optional-parallel-list checks of one entry, in
source order; on success the tracked `previous_left` is returned unchanged. -/
def validate_entry_tail (all_flags : FlagTable) (previous_left : Option String)
    (e : Entry) : Except VErr (Option String) :=
  match check_flags_entry all_flags e.lefts e.lefts_flags VErr.flagLeftsLength with
  | Except.error er => Except.error er
  | Except.ok () =>
    match check_flags_entry all_flags e.rights e.rights_flags VErr.flagRightsLength with
    | Except.error er => Except.error er
    | Except.ok () =>
      match check_add_categories e.category e.lefts e.lefts_add_categories
          VErr.categoryLeftsAddLength VErr.categoryAddListNotSorted
          VErr.categoryLeftsAddSelf with
      | Except.error er => Except.error er
      | Except.ok () =>
        match check_add_categories e.category e.rights e.rights_add_categories
            VErr.flagRightsAddLength VErr.categoryAddListNotSorted
            VErr.categoryRightsAddSelf with
        | Except.error er => Except.error er
        | Except.ok () => Except.ok previous_left

/-- Lines 67-71: the first left phrase of an entry must be strictly greater
(case-insensitively) than the tracked `previous_left`; entries with no lefts
leave the tracked value unchanged. -/
def validate_entry_first_left (all_flags : FlagTable) (previous_left : Option String)
    (e : Entry) : Except VErr (Option String) :=
  match e.lefts with
  | [] => validate_entry_tail all_flags previous_left e
  | l0 :: _ =>
    match previous_left with
    | some pl =>
      if strLe (pyLower l0) (pyLower pl) then Except.error VErr.sortingFirstLeft
      else validate_entry_tail all_flags (some l0) e
    | none => validate_entry_tail all_flags (some l0) e

/-- Lines 60-65: `lefts` and `rights` must be sorted case-insensitively. -/
def validate_entry_sides (all_flags : FlagTable) (previous_left : Option String)
    (e : Entry) : Except VErr (Option String) :=
  if lowerList e.lefts ≠ pySortedStr (lowerList e.lefts) then
    Except.error VErr.sortingLeftsNotSorted
  else if lowerList e.rights ≠ pySortedStr (lowerList e.rights) then
    Except.error VErr.sortingRightsNotSorted
  else validate_entry_first_left all_flags previous_left e

/-- Lines 51-103: validation of one entry, given the tracked previous
category and previous first-left; resolves the category-order check and the
`previous_left` reset of lines 51-56 first. -/
def validate_entry (all_flags : FlagTable) (previous_category previous_left : Option String)
    (e : Entry) : Except VErr (Option String) :=
  match previous_category with
  | some pc =>
    if strLt e.category pc then Except.error VErr.sortingCategoryOrder
    else validate_entry_sides all_flags
      (if pc ≠ e.category then none else previous_left) e
  | none => validate_entry_sides all_flags previous_left e

/-- The entry loop of lines 48-103, threading `previous_category` and
`previous_left`. -/
def validate_entries (all_flags : FlagTable) :
    Option String → Option String → List Entry → Except VErr Unit
  | _, _, [] => Except.ok ()
  | pc, pl, e :: rest =>
    match validate_entry all_flags pc pl e with
    | Except.error er => Except.error er
    | Except.ok pl' => validate_entries all_flags (some e.category) pl' rest

/-- `validate_grammar` (toml2grammar.py lines 41-103). -/
def validate_grammar (spec : GrammarSpec) : Except VErr Unit :=
  if spec.metadata.top_level_categories ≠ pySortedStr spec.metadata.top_level_categories
  then Except.error VErr.topLevelNotSorted
  else validate_entries (spec.metadata.flags.getD []) none none spec.entries

/-! ## Synthesis (`compile_grammar`, toml2grammar.py lines 106-180) -/

/-- The `KeyError` a Python mandatory dict lookup can raise during
`compile_grammar` (the missing key is recorded). -/
inductive CompileErr where
  | keyError (key : String)
deriving DecidableEq, Repr

/-- Key lookup in the `metadata["flags"]` dict (`flag_to_opt[f]`, line 125
and 134); keys of a decoded TOML table are distinct. -/
def lookupTable (tbl : FlagTable) (k : String) : Option String :=
  match tbl with
  | [] => none
  | (k', v) :: rest => if k' = k then some v else lookupTable rest k

/-- `[flag_to_opt[f] for f in flags]`, raising `KeyError` on an undeclared
flag name. -/
def resolveFlagNames (tbl : FlagTable) : List String → Except CompileErr (List String)
  | [] => Except.ok []
  | f :: rest =>
    match lookupTable tbl f with
    | none => Except.error (CompileErr.keyError f)
    | some v =>
      match resolveFlagNames tbl rest with
      | Except.error er => Except.error er
      | Except.ok vs => Except.ok (v :: vs)

/-- `sorted(flag_to_opt[f] for f in flags)` (lines 125 and 134): one flag
list resolved to its sorted option tuple. -/
def resolveOpts (tbl : FlagTable) (flags : List String) : Except CompileErr (List String) :=
  match resolveFlagNames tbl flags with
  | Except.error er => Except.error er
  | Except.ok vs => Except.ok (pySortedStr vs)

/-- The list comprehension over all flag lists of one role of one entry. -/
def resolveAll (tbl : FlagTable) : List (List String) → Except CompileErr (List (List String))
  | [] => Except.ok []
  | fl :: rest =>
    match resolveOpts tbl fl with
    | Except.error er => Except.error er
    | Except.ok o =>
      match resolveAll tbl rest with
      | Except.error er => Except.error er
      | Except.ok os => Except.ok (o :: os)

/-- Python `set.add` on the per-category phrase sets: a no-op when the
element is already present. -/
def setAdd (s : List SentencePart) (v : SentencePart) : List SentencePart :=
  if v ∈ s then s else s ++ [v]

/-- A `defaultdict(str, set)` of `SentencePart`s, as an association list. -/
abbrev CatIndex : Type := List (String × List SentencePart)

/-- `category_xxx[c].add(v)` on a `defaultdict(set)`: inserts the key with a
fresh set when absent. -/
def indexAdd (idx : CatIndex) (c : String) (v : SentencePart) : CatIndex :=
  match idx with
  | [] => [(c, [v])]
  | (k, s) :: rest =>
    if k = c then (k, setAdd s v) :: rest else (k, s) :: indexAdd rest c v

/-- `category_xxx.get(c, None)` (lines 162-163). -/
def indexGet (idx : CatIndex) (c : String) : Option (List SentencePart) :=
  match idx with
  | [] => none
  | (k, s) :: rest => if k = c then some s else indexGet rest c

/-- The key set of a category index. -/
def indexKeys (idx : CatIndex) : List String := idx.map Prod.fst

/-- Python truncating three-way `zip` (lines 136 and 142). -/
def zip3 : List α → List β → List γ → List (α × β × γ)
  | a :: as', b :: bs, c :: cs => (a, b, c) :: zip3 as' bs cs
  | _, _, _ => []

/-- Lines 138-140 resp. 144-146: insert one phrase variant under the base
category and under every additional category. -/
def insertVariant (category txt : String) (opts : List String)
    (addCats : List String) (idx : CatIndex) : CatIndex :=
  addCats.foldl (fun acc ac => indexAdd acc ac ⟨txt, opts⟩)
    (indexAdd idx category ⟨txt, opts⟩)

/-- The `for left, opts, add_categs in zip(...)` loop of lines 136-140
(identically 142-146 for rights). -/
def insertVariants (category : String) :
    List (String × List String × List String) → CatIndex → CatIndex
  | [], idx => idx
  | (txt, opts, acs) :: rest, idx =>
    insertVariants category rest (insertVariant category txt opts acs idx)

/-- `[[] for _ in xs]`: the default used when a parallel list is absent
(lines 120-124, 128-133). -/
def defaultsFor (xs : List String) : List (List String) := xs.map (fun _ => [])

/-- Lines 115-146 for a single entry: resolve the option tuples of both
roles (lefts first, as in the source), then insert all variants. -/
def buildEntry (tbl : FlagTable) (e : Entry) (L R : CatIndex) :
    Except CompileErr (CatIndex × CatIndex) :=
  match resolveAll tbl (e.lefts_flags.getD (defaultsFor e.lefts)) with
  | Except.error er => Except.error er
  | Except.ok lefts_opts =>
    match resolveAll tbl (e.rights_flags.getD (defaultsFor e.rights)) with
    | Except.error er => Except.error er
    | Except.ok rights_opts =>
      Except.ok
        (insertVariants e.category
          (zip3 e.lefts lefts_opts (e.lefts_add_categories.getD (defaultsFor e.lefts))) L,
         insertVariants e.category
          (zip3 e.rights rights_opts (e.rights_add_categories.getD (defaultsFor e.rights))) R)

/-- The whole entry loop of lines 112-146, building `category_lefts` and
`category_rights`. -/
def buildIndexes (tbl : FlagTable) :
    List Entry → CatIndex → CatIndex → Except CompileErr (CatIndex × CatIndex)
  | [], L, R => Except.ok (L, R)
  | e :: rest, L, R =>
    match buildEntry tbl e L R with
    | Except.error er => Except.error er
    | Except.ok LR => buildIndexes tbl rest LR.1 LR.2

/-- `"".join(f" !opt_{f}" for f in sorted(phrase.options))` (line 175). -/
def flagStr (options : List String) : String :=
  pyJoin ((pySortedStr options).map (fun f => " !opt_" ++ f))

/-- One alternative line (line 176). -/
def alt_line (symbol : String) (p : SentencePart) : String :=
  "    " ++ symbol ++ flagStr p.options ++ " " ++ quote_grammar p.text

/-- The alternative loop of lines 168-176 with its `first` flag: `":"` for
the first alternative, `"|"` afterwards. -/
def alt_lines : Bool → List SentencePart → List String
  | _, [] => []
  | first, p :: rest =>
    alt_line (if first then ":" else "|") p :: alt_lines false rest

/-- Lines 166-178 for one category and one role: header line, alternatives
over the sorted phrase set, closing `"    ;"`; nothing when the role is not
populated. -/
def production_lines (category roleName : String) :
    Option (List SentencePart) → List String
  | none => []
  | some phrases =>
    ((category ++ "_" ++ roleName) :: alt_lines true (pySortedSP phrases)) ++ ["    ;"]

/-- Lines 159-178: the per-category production section, iterating
`sorted(set(category_lefts) | set(category_rights))`. -/
def category_section (category_lefts category_rights : CatIndex) : List String :=
  (pySortedStr ((indexKeys category_lefts ++ indexKeys category_rights).dedup)).flatMap
    (fun category =>
      production_lines category "left" (indexGet category_lefts category) ++
      production_lines category "right" (indexGet category_rights category))

/-- `compile_grammar` (toml2grammar.py lines 106-180).  The mandatory
`metadata["flags"]` and `metadata["glue"]` lookups raise `KeyError` when the
key is absent (lines 109-110). -/
def compile_grammar (grammar_name : String) (spec : GrammarSpec) :
    Except CompileErr (List String) :=
  match spec.metadata.flags with
  | none => Except.error (CompileErr.keyError "flags")
  | some flag_to_opt =>
    match spec.metadata.glue with
    | none => Except.error (CompileErr.keyError "glue")
    | some glue =>
      match buildIndexes flag_to_opt spec.entries [] [] with
      | Except.error er => Except.error er
      | Except.ok LR =>
        Except.ok
          (["// generated from a TOML file -- no sense in editing this!", ""] ++
           [grammar_name ++ " : " ++
              String.intercalate " | "
                (spec.metadata.top_level_categories.map (fun tlc => tlc ++ "_pair")) ++
              " ;", ""] ++
           ["_glue : " ++ quote_grammar glue ++ " ;", ""] ++
           spec.metadata.top_level_categories.map
             (fun tlc => tlc ++ "_pair : " ++ tlc ++ "_left _glue " ++ tlc ++ "_right ;") ++
           [""] ++
           category_section LR.1 LR.2)

/-! ## Specification-side definitions

These re-state, in the specification's own words, the properties the claims
assert about the code; they are compared with the embedded source above. -/

/-- The string order as a relation, for the specification-side sorts. -/
def ascStrLe (a b : String) : Prop := strLe a b = true

instance : DecidableRel ascStrLe :=
  fun a b => inferInstanceAs (Decidable (strLe a b = true))

instance : IsTotal String ascStrLe :=
  ⟨fun a b => by
    have := strLe_total a b
    simp only [Bool.or_eq_true] at this
    exact this⟩

instance : IsTrans String ascStrLe :=
  ⟨fun a b c => strLe_trans a b c⟩

instance : IsAntisymm String ascStrLe :=
  ⟨fun a b => strLe_antisymm a b⟩

/-- Ascending order on names, specification side (a merge sort, in
contrast to the insertion sort modelling Python's `sorted`). -/
def spec_ascending (l : List String) : List String := l.mergeSort strLe

/-- The specification's alternative order: "sorted first by `text`, then by
the `options` tuple". -/
def spec_sp_order (a b : SentencePart) : Prop :=
  strLt a.text b.text = true ∨ (a.text = b.text ∧ optsLe a.options b.options = true)

instance : DecidableRel spec_sp_order :=
  fun a b => inferInstanceAs (Decidable (_ ∨ _))

/-- The specification-side sort of a role's phrase variants. -/
def spec_sorted_variants (l : List SentencePart) : List SentencePart :=
  List.insertionSort spec_sp_order l

/-- Option guard tokens "emitted in ascending option-name order". -/
def spec_guards (options : List String) : String :=
  pyJoin ((spec_ascending options).map (fun f => " !opt_" ++ f))

/-- One alternative, specification side. -/
def spec_alt_line (symbol : String) (p : SentencePart) : String :=
  "    " ++ symbol ++ spec_guards p.options ++ " " ++ quote_grammar p.text

/-- "the first alternative introduced by `:` and every subsequent
alternative by `|`". -/
def spec_alternatives (phrases : List SentencePart) : List String :=
  match spec_sorted_variants phrases with
  | [] => []
  | p :: rest => spec_alt_line ":" p :: rest.map (spec_alt_line "|")

/-- One emitted production, specification side. -/
def spec_production (category roleName : String) (phrases : List SentencePart) :
    List String :=
  ((category ++ "_" ++ roleName) :: spec_alternatives phrases) ++ ["    ;"]

/-- The specification's per-category production section: "per-category
productions for exactly the categories that have at least one left or right
Phrase Variant (the union of the left-role and right-role key sets),
iterated in ascending category-name order". -/
def spec_category_section (L R : CatIndex) : List String :=
  (spec_ascending ((indexKeys L).union (indexKeys R))).flatMap
    (fun c =>
      (match indexGet L c with
       | some s => spec_production c "left" s
       | none => []) ++
      (match indexGet R c with
       | some s => spec_production c "right" s
       | none => []))

/-- "strictly ascending-sorted", as claim C6 reads invariant 1. -/
def strictlyAscending (l : List String) : Prop :=
  List.Chain' (fun a b => strLt a b = true) l

/-- Claim C7's entry-ordering condition, as an explicit fold over the
entries: categories non-decreasing; within a run of equal categories the
first left phrase of every entry with a non-empty `lefts` is strictly
greater, case-insensitively, than the previously recorded one; the record
resets whenever the category changes. -/
def claim_entries_ordered : Option String → Option String → List Entry → Bool
  | _, _, [] => true
  | pc, recorded, e :: rest =>
    let catOk : Bool :=
      match pc with
      | none => true
      | some c => strLe c e.category
    let recorded' : Option String :=
      match pc with
      | none => recorded
      | some c => if c = e.category then recorded else none
    if !catOk then false
    else
      match e.lefts with
      | [] => claim_entries_ordered (some e.category) recorded' rest
      | l0 :: _ =>
        match recorded' with
        | some pl =>
          strLt (pyLower pl) (pyLower l0) &&
            claim_entries_ordered (some e.category) (some l0) rest
        | none => claim_entries_ordered (some e.category) (some l0) rest

/-- Claim C7's condition on a whole entry list. -/
def claim_order_ok (es : List Entry) : Bool := claim_entries_ordered none none es

/-- The ordering-only residue of `validate_entry` lines 67-71: what the
first-left check does once the side-sortedness and parallel-list checks are
known to pass. -/
def order_first_left (pl : Option String) (e : Entry) : Except VErr (Option String) :=
  match e.lefts with
  | [] => Except.ok pl
  | l0 :: _ =>
    match pl with
    | some p =>
      if strLe (pyLower l0) (pyLower p) then Except.error VErr.sortingFirstLeft
      else Except.ok (some l0)
    | none => Except.ok (some l0)

/-- The ordering-only residue of `validate_entry`. -/
def order_entry (pc pl : Option String) (e : Entry) : Except VErr (Option String) :=
  match pc with
  | some c =>
    if strLt e.category c then Except.error VErr.sortingCategoryOrder
    else order_first_left (if c ≠ e.category then none else pl) e
  | none => order_first_left pl e

/-- The ordering-only residue of the entry loop. -/
def order_run : Option String → Option String → List Entry → Except VErr Unit
  | _, _, [] => Except.ok ()
  | pc, pl, e :: rest =>
    match order_entry pc pl e with
    | Except.error er => Except.error er
    | Except.ok pl' => order_run (some e.category) pl' rest

/-- The four parallel-list checks of one entry all succeed. -/
def entry_tail_ok (A : FlagTable) (e : Entry) : Prop :=
  check_flags_entry A e.lefts e.lefts_flags VErr.flagLeftsLength = Except.ok () ∧
  check_flags_entry A e.rights e.rights_flags VErr.flagRightsLength = Except.ok () ∧
  check_add_categories e.category e.lefts e.lefts_add_categories
    VErr.categoryLeftsAddLength VErr.categoryAddListNotSorted
    VErr.categoryLeftsAddSelf = Except.ok () ∧
  check_add_categories e.category e.rights e.rights_add_categories
    VErr.flagRightsAddLength VErr.categoryAddListNotSorted
    VErr.categoryRightsAddSelf = Except.ok ()

/-- All per-entry checks except the two ordering checks succeed. -/
def entry_checks_ok (A : FlagTable) (e : Entry) : Prop :=
  lowerList e.lefts = pySortedStr (lowerList e.lefts) ∧
  lowerList e.rights = pySortedStr (lowerList e.rights) ∧
  entry_tail_ok A e

instance (A : FlagTable) (e : Entry) : Decidable (entry_tail_ok A e) := by
  unfold entry_tail_ok
  infer_instance

instance (A : FlagTable) (e : Entry) : Decidable (entry_checks_ok A e) := by
  unfold entry_checks_ok
  infer_instance

/-- Membership of a phrase variant in one category's set of an index. -/
def memIndex (idx : CatIndex) (c : String) (v : SentencePart) : Prop :=
  ∃ s, indexGet idx c = some s ∧ v ∈ s

/-- Entry `e` contributes variant `v` to category `c` on the left role:
some left phrase of `e` has text `v.text`, its flag set resolves to
`v.options`, and `c` is the base category or one of the phrase's additional
categories. -/
def contributesLeft (tbl : FlagTable) (e : Entry) (c : String) (v : SentencePart) : Prop :=
  ∃ l fl acs,
    (l, fl, acs) ∈ zip3 e.lefts (e.lefts_flags.getD (defaultsFor e.lefts))
      (e.lefts_add_categories.getD (defaultsFor e.lefts)) ∧
    resolveOpts tbl fl = Except.ok v.options ∧
    v.text = l ∧ (c = e.category ∨ c ∈ acs)

/-- The right-role counterpart of `contributesLeft`. -/
def contributesRight (tbl : FlagTable) (e : Entry) (c : String) (v : SentencePart) : Prop :=
  ∃ r fl acs,
    (r, fl, acs) ∈ zip3 e.rights (e.rights_flags.getD (defaultsFor e.rights))
      (e.rights_add_categories.getD (defaultsFor e.rights)) ∧
    resolveOpts tbl fl = Except.ok v.options ∧
    v.text = r ∧ (c = e.category ∨ c ∈ acs)

/-! ## Concrete inputs used by counterexamples and witnesses -/

/-- The end-to-end example of the specification: metadata
`{top_level_categories: ["greeting"], flags: {"f": "formal"}, glue: " "}`
and one entry `{category: "greeting", lefts: ["hi"], rights: ["there"],
lefts_flags: [["f"]]}`. -/
def toml_example_spec : GrammarSpec :=
  ⟨⟨["greeting"], some [("f", "formal")], some " "⟩,
   [⟨"greeting", ["hi"], ["there"], some [["f"]], none, none, none⟩]⟩

/-- The lines `compile_grammar` produces for `toml_example_spec` under the
grammar name `"greetings"`. -/
def toml_example_output : List String :=
  ["// generated from a TOML file -- no sense in editing this!", "",
   "greetings : greeting_pair ;", "",
   "_glue : \" \" ;", "",
   "greeting_pair : greeting_left _glue greeting_right ;", "",
   "greeting_left",
   "    : !opt_formal \"hi\"",
   "    ;",
   "greeting_right",
   "    : \"there\"",
   "    ;"]

/-- A grammar spec whose metadata carries no `flags` key and whose entry
uses no flags. -/
def no_flags_spec : GrammarSpec :=
  ⟨⟨["g"], none, some " "⟩, [⟨"g", ["hello"], ["world"], none, none, none, none⟩]⟩

/-- Top-level categories `["a", "a"]`: duplicates, hence not strictly
ascending. -/
def dup_tlc_spec : GrammarSpec := ⟨⟨["a", "a"], some [], some " "⟩, []⟩

/-- Top-level categories `["b", "a"]`: out of order. -/
def unsorted_tlc_spec : GrammarSpec := ⟨⟨["b", "a"], some [], some " "⟩, []⟩

/-- An entry whose `rights_add_categories` has length 0 while `rights` has
length 1. -/
def rights_add_len_spec : GrammarSpec :=
  ⟨⟨["c"], some [], some " "⟩, [⟨"c", [], ["r"], none, none, none, some []⟩]⟩

/-- The mirror image: `lefts_add_categories` of length 0 with one left. -/
def lefts_add_len_spec : GrammarSpec :=
  ⟨⟨["c"], some [], some " "⟩, [⟨"c", ["l"], [], none, none, some [], none⟩]⟩

/-- An entry with the unsorted per-phrase flag set `["b", "a"]`. -/
def unsorted_flag_set_spec : GrammarSpec :=
  ⟨⟨["c"], some [("a", "aa"), ("b", "bb")], some " "⟩,
   [⟨"c", ["x"], [], some [["b", "a"]], none, none, none⟩]⟩

/-- A valid spec whose single entry has flags and additional categories on
both roles. -/
def fanout_spec : GrammarSpec :=
  ⟨⟨["x"], some [("f", "formal")], some " "⟩,
   [⟨"base", ["hi"], ["yo"], some [["f"]], none, some [["other"]], some [["extra"]]⟩]⟩

/-- A valid spec in which two different entries contribute the identical
phrase variant `("x", ())` to the left role of category `"a"`: the first by
its base category, the second through `lefts_add_categories`. -/
def duplicate_spec : GrammarSpec :=
  ⟨⟨["a"], some [], some " "⟩,
   [⟨"a", ["x"], [], none, none, none, none⟩,
    ⟨"b", ["x"], [], none, none, some [["a"]], none⟩]⟩

/-- Two same-category entries whose first left phrases are out of order
(`"b"` then `"a"`), with every non-ordering check satisfied. -/
def misordered_spec : GrammarSpec :=
  ⟨⟨["t"], some [], some " "⟩,
   [⟨"a", ["b"], [], none, none, none, none⟩,
    ⟨"a", ["a"], [], none, none, none, none⟩]⟩

/-- The left index `compile_grammar` builds for `toml_example_spec`. -/
def example_index_lefts : CatIndex := [("greeting", [⟨"hi", ["formal"]⟩])]

/-- The right index `compile_grammar` builds for `toml_example_spec`. -/
def example_index_rights : CatIndex := [("greeting", [⟨"there", []⟩])]

/-! ## Sorting infrastructure -/

theorem pyInsert_eq_orderedInsert (le : α → α → Bool) (x : α) (l : List α) :
    pyInsert le x l = List.orderedInsert (fun a b => le a b = true) x l := by
  induction l with
  | nil => rfl
  | cons y ys ih =>
    simp only [pyInsert, List.orderedInsert]
    by_cases h : le x y = true
    · simp [h]
    · simp [h, ih]

theorem pySort_eq_insertionSort (le : α → α → Bool) (l : List α) :
    pySort le l = List.insertionSort (fun a b => le a b = true) l := by
  induction l with
  | nil => rfl
  | cons x xs ih => simp only [pySort, List.insertionSort, ih, pyInsert_eq_orderedInsert]

theorem pySort_perm (le : α → α → Bool) (l : List α) : (pySort le l).Perm l := by
  rw [pySort_eq_insertionSort]
  exact List.perm_insertionSort _ l

theorem pySort_sorted (le : α → α → Bool)
    (leTrans : ∀ a b c, le a b = true → le b c = true → le a c = true)
    (leTotal : ∀ a b, (le a b || le b a) = true) (l : List α) :
    List.Sorted (fun a b => le a b = true) (pySort le l) := by
  rw [pySort_eq_insertionSort]
  letI : IsTotal α (fun a b => le a b = true) :=
    ⟨fun a b => by have := leTotal a b; simpa using this⟩
  letI : IsTrans α (fun a b => le a b = true) := ⟨fun a b c => leTrans a b c⟩
  exact List.sorted_insertionSort _ l

theorem sorted_unique {r : α → α → Prop} (anti : ∀ a b, r a b → r b a → a = b)
    {l₁ l₂ : List α} (hp : l₁.Perm l₂)
    (h₁ : List.Sorted r l₁) (h₂ : List.Sorted r l₂) : l₁ = l₂ := by
  letI : IsAntisymm α r := ⟨anti⟩
  exact List.eq_of_perm_of_sorted hp h₁ h₂

theorem pySortedStr_sorted (l : List String) :
    List.Sorted (fun a b => strLe a b = true) (pySortedStr l) :=
  pySort_sorted strLe strLe_trans strLe_total l

theorem pySortedStr_perm (l : List String) : (pySortedStr l).Perm l :=
  pySort_perm strLe l

/-- The two models of Python `sorted` on strings agree. -/
theorem pySortedStr_eq_mergeSort (l : List String) :
    pySortedStr l = l.mergeSort strLe := by
  refine sorted_unique strLe_antisymm ?_ (pySortedStr_sorted l) ?_
  · exact (pySortedStr_perm l).trans (List.mergeSort_perm l strLe).symm
  · exact List.sorted_mergeSort strLe_trans strLe_total l

/-! ## The quoting functions (claim C5) -/

theorem string_mk_append (l m : List Char) :
    (String.mk l ++ String.mk m) = String.mk (l ++ m) := rfl

theorem pyJoin_quote_chars (cs : List Char) :
    pyJoin (quote_grammar_chars cs ++ ["\""]) = String.mk (cs.flatMap spec_escape_char ++ ['"']) := by
  induction cs with
  | nil => rfl
  | cons c cs ih =>
    show (if c = '\\' then "\\\\" else if c = '"' then "\\\"" else String.mk [c]) ++
        pyJoin (quote_grammar_chars cs ++ ["\""]) = _
    rw [ih]
    by_cases h1 : c = '\\'
    · subst h1
      rfl
    · by_cases h2 : c = '"'
      · subst h2
        rfl
      · simp only [List.flatMap_cons, spec_escape_char, if_neg h1, if_neg h2]
        rw [string_mk_append, List.append_assoc]

theorem quote_grammar_eq_spec_quote (s : String) : quote_grammar s = spec_quote s := by
  unfold quote_grammar spec_quote
  rw [show ("\"" :: quote_grammar_chars s.data) ++ ["\""] =
        "\"" :: (quote_grammar_chars s.data ++ ["\""]) from rfl]
  show "\"" ++ pyJoin (quote_grammar_chars s.data ++ ["\""]) = _
  rw [pyJoin_quote_chars]
  rfl

theorem grammar_quote_chars_eq (cs : List Char) :
    grammar_quote_chars cs = quote_grammar_chars cs := by
  induction cs with
  | nil => rfl
  | cons c cs ih =>
    simp only [grammar_quote_chars, quote_grammar_chars, ih]
    by_cases h1 : c = '\\'
    · subst h1
      simp
    · by_cases h2 : c = '"'
      · subst h2
        simp
      · simp [h1, h2]

/-- C5: the grammar literal quoting function wraps its argument in double
quotes, doubling each backslash and escaping each double quote with a
backslash, leaving every other character unchanged; both `quote_grammar`
(TOML variant) and `grammar_quote` (TSV variant) implement exactly this
rule, hence they are extensionally equal. -/
theorem C5_quote_functions (s : String) :
    quote_grammar s = spec_quote s ∧ grammar_quote s = spec_quote s ∧
    quote_grammar s = grammar_quote s := by
  have h1 := quote_grammar_eq_spec_quote s
  have h2 : grammar_quote s = quote_grammar s := by
    unfold grammar_quote quote_grammar
    rw [grammar_quote_chars_eq]
  exact ⟨h1, h2.trans h1, h2.symm⟩

/-! ## Claim C2: the end-to-end example -/

/-- C2 counterexample: on the specification's end-to-end example input the
compiler succeeds, but its output does not contain the claimed literal
lines: the pair production refers to the `_glue` nonterminal instead of an
inline `" "` literal, and each category-role production is spread over a
header line, alternative lines, and a closing `"    ;"` line rather than a
single line. -/
theorem C2_counterexample :
    compile_grammar "greetings" toml_example_spec = Except.ok toml_example_output ∧
    "greeting_pair : greeting_left \" \" greeting_right ;" ∉ toml_example_output ∧
    "greeting_left : !opt_formal \"hi\" ;" ∉ toml_example_output ∧
    "greeting_right : \"there\" ;" ∉ toml_example_output := by
  refine ⟨rfl, ?_, ?_, ?_⟩ <;> decide

/-- C2 amended: for the end-to-end example input the compiled output is
exactly `toml_example_output` — it contains a root rule referencing
`greeting_pair`, the glue rule `_glue : " " ;`, the pair rule
`greeting_pair : greeting_left _glue greeting_right ;`, and the left/right
productions as three-line blocks `greeting_left` /
`    : !opt_formal "hi"` / `    ;` and `greeting_right` / `    : "there"` /
`    ;`. -/
theorem C2_amended :
    compile_grammar "greetings" toml_example_spec = Except.ok toml_example_output ∧
    "greetings : greeting_pair ;" ∈ toml_example_output ∧
    "_glue : \" \" ;" ∈ toml_example_output ∧
    "greeting_pair : greeting_left _glue greeting_right ;" ∈ toml_example_output ∧
    List.IsInfix ["greeting_left", "    : !opt_formal \"hi\"", "    ;"]
      toml_example_output ∧
    List.IsInfix ["greeting_right", "    : \"there\"", "    ;"]
      toml_example_output := by
  refine ⟨rfl, ?_, ?_, ?_, ?_, ?_⟩ <;> decide

/-! ## Claim C6: sortedness of the top-level category list -/

/-- C6 counterexample: the list `["a", "a"]` is not strictly ascending, yet
a spec with these top-level categories passes validation — the check at
line 43 compares against Python's (non-strict) `sorted`, which leaves
duplicates in place. -/
theorem C6_counterexample :
    ¬ strictlyAscending dup_tlc_spec.metadata.top_level_categories ∧
    validate_grammar dup_tlc_spec = Except.ok () := by
  refine ⟨fun h => ?_, rfl⟩
  rw [show dup_tlc_spec.metadata.top_level_categories = ["a", "a"] from rfl] at h
  rw [strictlyAscending, List.chain'_cons] at h
  have h1 := h.1
  rw [strLt_irrefl "a"] at h1
  exact Bool.false_ne_true h1

/-- C6 amended: validation fails with the top-level-categories error
(raised as `"metadata.top_level_categories is not sorted"`, the
specification's `SortingError`) precisely for lists that differ from their
non-strictly sorted permutation; a merely non-strictly-ascending list with
adjacent duplicates such as `["a", "a"]` is accepted. -/
theorem C6_amended (spec : GrammarSpec)
    (h : spec.metadata.top_level_categories ≠
      pySortedStr spec.metadata.top_level_categories) :
    validate_grammar spec = Except.error VErr.topLevelNotSorted := by
  unfold validate_grammar
  rw [if_pos h]

/-- Witness for C6_amended at the out-of-order list `["b", "a"]`. -/
theorem C6_witness :
    unsorted_tlc_spec.metadata.top_level_categories ≠
      pySortedStr unsorted_tlc_spec.metadata.top_level_categories ∧
    validate_grammar unsorted_tlc_spec = Except.error VErr.topLevelNotSorted :=
  ⟨by decide, C6_amended unsorted_tlc_spec (by decide)⟩

/-! ## Claim C9: the rights add-categories length mismatch -/

/-- C9: a `rights_add_categories` length mismatch is raised with the
message prefix `"flag error"` (toml2grammar.py line 98), while the
symmetric `lefts_add_categories` mismatch is raised with `"category
error"` (line 88) — the rights-side raise contradicts both the
specification's `CategoryError` classification and the code's own
left-side counterpart. -/
theorem C9_rights_add_length_mismatch :
    validate_grammar rights_add_len_spec = Except.error VErr.flagRightsAddLength ∧
    msgKind VErr.flagRightsAddLength = ErrKind.flag ∧
    validate_grammar lefts_add_len_spec = Except.error VErr.categoryLeftsAddLength ∧
    msgKind VErr.categoryLeftsAddLength = ErrKind.category ∧
    ErrKind.flag ≠ ErrKind.category :=
  ⟨rfl, rfl, rfl, rfl, by decide⟩

/-! ## Claim C10: validation does not guarantee compilation -/

/-- C10: a spec whose metadata has no `flags` key and whose entry uses no
flags passes `validate_grammar` (which defaults the flag table with
`.get("flags", {})`), yet `compile_grammar` fails with `KeyError: flags`
from its unconditional `metadata["flags"]` lookup. -/
theorem C10_validate_compile_mismatch :
    validate_grammar no_flags_spec = Except.ok () ∧
    compile_grammar "g" no_flags_spec = Except.error (CompileErr.keyError "flags") :=
  ⟨rfl, rfl⟩

/-! ## Validation structure lemmas -/

theorem validate_flag_names_ok_iff (A : FlagTable) (fl : List String) :
    validate_flag_names A fl = Except.ok () ↔ ∀ f ∈ fl, flagKnown A f = true := by
  induction fl with
  | nil => simp [validate_flag_names]
  | cons f rest ih =>
    cases hkn : flagKnown A f with
    | true => simp [validate_flag_names, hkn, ih]
    | false => simp [validate_flag_names, hkn]

theorem validate_flags_ok_iff (A : FlagTable) (fls : List (List String)) :
    validate_flags A fls = Except.ok () ↔
    ∀ fl ∈ fls, fl = pySortedStr fl ∧ validate_flag_names A fl = Except.ok () := by
  induction fls with
  | nil => simp [validate_flags]
  | cons fl rest ih =>
    by_cases hs : fl = pySortedStr fl
    · have hcond : ¬ (fl ≠ pySortedStr fl) := fun hc => hc hs
      cases hvn : validate_flag_names A fl with
      | error er =>
        rw [validate_flags, if_neg hcond, hvn]
        constructor
        · intro h
          exact absurd h (by simp)
        · intro h
          have h2 := (h fl (List.mem_cons_self fl rest)).2
          rw [hvn] at h2
          exact absurd h2 (by simp)
      | ok u =>
        cases u
        rw [validate_flags, if_neg hcond, hvn]
        show validate_flags A rest = Except.ok () ↔ _
        rw [ih]
        constructor
        · intro h fl' hfl'
          cases hfl' with
          | head => exact ⟨hs, hvn⟩
          | tail _ hmem => exact h fl' hmem
        · intro h fl' hmem
          exact h fl' (List.mem_cons_of_mem fl hmem)
    · rw [validate_flags, if_pos hs]
      constructor
      · intro h
        exact absurd h (by simp)
      · intro h
        exact absurd (h fl (List.mem_cons_self fl rest)).1 hs

theorem validate_entry_tail_ok_elim {A : FlagTable} {pl : Option String} {e : Entry}
    {pl' : Option String} (h : validate_entry_tail A pl e = Except.ok pl') :
    entry_tail_ok A e ∧ pl' = pl := by
  rw [validate_entry_tail] at h
  cases h1 : check_flags_entry A e.lefts e.lefts_flags VErr.flagLeftsLength with
  | error er => rw [h1] at h; exact absurd h (by simp)
  | ok u =>
    cases u
    rw [h1] at h
    cases h2 : check_flags_entry A e.rights e.rights_flags VErr.flagRightsLength with
    | error er => rw [h2] at h; exact absurd h (by simp)
    | ok u =>
      cases u
      rw [h2] at h
      cases h3 : check_add_categories e.category e.lefts e.lefts_add_categories
          VErr.categoryLeftsAddLength VErr.categoryAddListNotSorted
          VErr.categoryLeftsAddSelf with
      | error er => rw [h3] at h; exact absurd h (by simp)
      | ok u =>
        cases u
        rw [h3] at h
        cases h4 : check_add_categories e.category e.rights e.rights_add_categories
            VErr.flagRightsAddLength VErr.categoryAddListNotSorted
            VErr.categoryRightsAddSelf with
        | error er => rw [h4] at h; exact absurd h (by simp)
        | ok u =>
          cases u
          rw [h4] at h
          have hv : pl' = pl := by
            have := h
            simp only [Except.ok.injEq] at this
            exact this.symm
          exact ⟨⟨h1, h2, h3, h4⟩, hv⟩

theorem validate_entry_tail_of_ok {A : FlagTable} {e : Entry} (h : entry_tail_ok A e)
    (pl : Option String) : validate_entry_tail A pl e = Except.ok pl := by
  obtain ⟨h1, h2, h3, h4⟩ := h
  rw [validate_entry_tail, h1, h2, h3, h4]

theorem validate_entry_sides_ok_tail {A : FlagTable} {pl pl' : Option String} {e : Entry}
    (h : validate_entry_sides A pl e = Except.ok pl') : entry_tail_ok A e := by
  rw [validate_entry_sides] at h
  by_cases hl : lowerList e.lefts ≠ pySortedStr (lowerList e.lefts)
  · rw [if_pos hl] at h
    exact absurd h (by simp)
  · rw [if_neg hl] at h
    by_cases hr : lowerList e.rights ≠ pySortedStr (lowerList e.rights)
    · rw [if_pos hr] at h
      exact absurd h (by simp)
    · rw [if_neg hr] at h
      rw [validate_entry_first_left] at h
      cases hlq : e.lefts with
      | nil =>
        rw [hlq] at h
        exact (validate_entry_tail_ok_elim h).1
      | cons l0 ltl =>
        rw [hlq] at h
        cases pl with
        | none => exact (validate_entry_tail_ok_elim h).1
        | some p =>
          replace h : (if strLe (pyLower l0) (pyLower p) = true
              then (Except.error VErr.sortingFirstLeft : Except VErr (Option String))
              else validate_entry_tail A (some l0) e) = Except.ok pl' := h
          by_cases hcmp : strLe (pyLower l0) (pyLower p) = true
          · rw [if_pos hcmp] at h
            exact absurd h (by simp)
          · rw [if_neg hcmp] at h
            exact (validate_entry_tail_ok_elim h).1

theorem validate_entry_ok_tail {A : FlagTable} {pc pl : Option String} {e : Entry}
    {pl' : Option String} (h : validate_entry A pc pl e = Except.ok pl') :
    entry_tail_ok A e := by
  rw [validate_entry.eq_def] at h
  cases pc with
  | none => exact validate_entry_sides_ok_tail h
  | some c =>
    replace h : (if strLt e.category c = true
        then (Except.error VErr.sortingCategoryOrder : Except VErr (Option String))
        else validate_entry_sides A (if c ≠ e.category then none else pl) e) =
        Except.ok pl' := h
    by_cases hlt : strLt e.category c = true
    · rw [if_pos hlt] at h
      exact absurd h (by simp)
    · rw [if_neg hlt] at h
      exact validate_entry_sides_ok_tail h

theorem validate_entries_ok_mem {A : FlagTable} :
    ∀ {pc pl : Option String} {es : List Entry},
    validate_entries A pc pl es = Except.ok () → ∀ e ∈ es, entry_tail_ok A e := by
  intro pc pl es
  induction es generalizing pc pl with
  | nil =>
    intro _ e he
    cases he
  | cons e0 rest ih =>
    intro h e he
    rw [validate_entries] at h
    cases hve : validate_entry A pc pl e0 with
    | error er =>
      rw [hve] at h
      exact absurd h (by simp)
    | ok pl' =>
      rw [hve] at h
      cases he with
      | head => exact validate_entry_ok_tail hve
      | tail _ hmem => exact ih h e hmem

theorem validate_grammar_ok_entries {spec : GrammarSpec}
    (h : validate_grammar spec = Except.ok ()) :
    spec.metadata.top_level_categories =
      pySortedStr spec.metadata.top_level_categories ∧
    validate_entries (spec.metadata.flags.getD []) none none spec.entries =
      Except.ok () := by
  rw [validate_grammar] at h
  by_cases htlc : spec.metadata.top_level_categories ≠
      pySortedStr spec.metadata.top_level_categories
  · rw [if_pos htlc] at h
    exact absurd h (by simp)
  · rw [if_neg htlc] at h
    exact ⟨Classical.byContradiction (fun hc => htlc hc), h⟩

/-! ## Claim C8: unsorted flag sets -/

/-- C8 counterexample: a spec with the unsorted per-phrase flag set
`["b", "a"]` fails validation with the error raised at line 35, whose
message reads `"sorting error: flag list ... not sorted"` — a
SortingError-discriminated message, not a FlagError. -/
theorem C8_counterexample :
    (["b", "a"] : List String) ≠ pySortedStr ["b", "a"] ∧
    validate_grammar unsorted_flag_set_spec =
      Except.error VErr.sortingFlagListNotSorted ∧
    msgKind VErr.sortingFlagListNotSorted = ErrKind.sorting ∧
    ErrKind.sorting ≠ ErrKind.flag :=
  ⟨by decide, rfl, rfl, by decide⟩

/-- C8 amended: a GrammarSpec containing an unsorted per-phrase flag set
never validates, but the error raised for the unsorted flag set carries the
`"sorting error"` message prefix (a SortingError), not the FlagError
discriminator the specification assigns to it. -/
theorem C8_amended (spec : GrammarSpec) (e : Entry) (fls : List (List String))
    (fl : List String) (he : e ∈ spec.entries)
    (hside : e.lefts_flags = some fls ∨ e.rights_flags = some fls)
    (hfl : fl ∈ fls) (hunsorted : fl ≠ pySortedStr fl) :
    validate_grammar spec ≠ Except.ok () ∧
    msgKind VErr.sortingFlagListNotSorted = ErrKind.sorting ∧
    ErrKind.sorting ≠ ErrKind.flag := by
  refine ⟨?_, rfl, by decide⟩
  intro hok
  have htail := validate_entries_ok_mem (validate_grammar_ok_entries hok).2 e he
  obtain ⟨h1, h2, _, _⟩ := htail
  cases hside with
  | inl hL =>
    rw [hL] at h1
    simp only [check_flags_entry] at h1
    by_cases hlen : fls.length ≠ e.lefts.length
    · rw [if_pos hlen] at h1
      exact absurd h1 (by simp)
    · rw [if_neg hlen] at h1
      exact hunsorted ((validate_flags_ok_iff _ fls).mp h1 fl hfl).1
  | inr hR =>
    rw [hR] at h2
    simp only [check_flags_entry] at h2
    by_cases hlen : fls.length ≠ e.rights.length
    · rw [if_pos hlen] at h2
      exact absurd h2 (by simp)
    · rw [if_neg hlen] at h2
      exact hunsorted ((validate_flags_ok_iff _ fls).mp h2 fl hfl).1

/-- Witness for C8_amended at `unsorted_flag_set_spec`. -/
theorem C8_witness :
    (⟨"c", ["x"], [], some [["b", "a"]], none, none, none⟩ : Entry) ∈
      unsorted_flag_set_spec.entries ∧
    (["b", "a"] : List String) ≠ pySortedStr ["b", "a"] ∧
    (validate_grammar unsorted_flag_set_spec ≠ Except.ok () ∧
      msgKind VErr.sortingFlagListNotSorted = ErrKind.sorting ∧
      ErrKind.sorting ≠ ErrKind.flag) :=
  ⟨by decide, by decide,
   C8_amended unsorted_flag_set_spec
     ⟨"c", ["x"], [], some [["b", "a"]], none, none, none⟩ [["b", "a"]] ["b", "a"]
     (by decide) (Or.inl rfl) (by decide) (by decide)⟩

/-! ## Claim C7: the entry-ordering invariant -/

theorem order_first_left_nil {e : Entry} (pl : Option String) (h : e.lefts = []) :
    order_first_left pl e = Except.ok pl := by
  rw [order_first_left, h]

theorem order_first_left_cons_none {e : Entry} {l0 : String} {tl : List String}
    (h : e.lefts = l0 :: tl) : order_first_left none e = Except.ok (some l0) := by
  rw [order_first_left, h]

theorem order_first_left_cons_some {e : Entry} {l0 : String} {tl : List String}
    (p : String) (h : e.lefts = l0 :: tl) :
    order_first_left (some p) e =
      (if strLt (pyLower p) (pyLower l0) = true then Except.ok (some l0)
       else Except.error VErr.sortingFirstLeft) := by
  rw [order_first_left, h]
  show (if (!(strLt (pyLower p) (pyLower l0))) = true then
      (Except.error VErr.sortingFirstLeft : Except VErr (Option String))
    else Except.ok (some l0)) = _
  cases hc : strLt (pyLower p) (pyLower l0) with
  | true => simp
  | false => simp

theorem order_entry_none (pl : Option String) (e : Entry) :
    order_entry none pl e = order_first_left pl e := rfl

theorem order_entry_some (c : String) (pl : Option String) (e : Entry) :
    order_entry (some c) pl e =
      (if strLt e.category c = true then Except.error VErr.sortingCategoryOrder
       else order_first_left (if c = e.category then pl else none) e) := by
  by_cases hC : c = e.category <;> simp [order_entry, hC]

theorem claim_cons_none (recorded : Option String) (e : Entry) (rest : List Entry) :
    claim_entries_ordered none recorded (e :: rest) =
      (match e.lefts with
       | [] => claim_entries_ordered (some e.category) recorded rest
       | l0 :: _ =>
         match recorded with
         | some pl =>
           strLt (pyLower pl) (pyLower l0) &&
             claim_entries_ordered (some e.category) (some l0) rest
         | none => claim_entries_ordered (some e.category) (some l0) rest) := rfl

theorem claim_cons_some (c : String) (recorded : Option String) (e : Entry)
    (rest : List Entry) :
    claim_entries_ordered (some c) recorded (e :: rest) =
      (if strLe c e.category = true then
        (match e.lefts with
         | [] => claim_entries_ordered (some e.category)
             (if c = e.category then recorded else none) rest
         | l0 :: _ =>
           match (if c = e.category then recorded else none) with
           | some pl =>
             strLt (pyLower pl) (pyLower l0) &&
               claim_entries_ordered (some e.category) (some l0) rest
           | none => claim_entries_ordered (some e.category) (some l0) rest)
       else false) := by
  cases hc : strLe c e.category with
  | true => simp [claim_entries_ordered, hc]
  | false => simp [claim_entries_ordered, hc]

theorem order_run_ok_iff :
    ∀ (es : List Entry) (pc pl : Option String),
    order_run pc pl es = Except.ok () ↔ claim_entries_ordered pc pl es = true := by
  intro es
  induction es with
  | nil =>
    intro pc pl
    simp [order_run, claim_entries_ordered]
  | cons e rest ih =>
    intro pc pl
    have hfl : ∀ pl'' : Option String,
        ((match order_first_left pl'' e with
          | Except.error er => Except.error er
          | Except.ok pl' => order_run (some e.category) pl' rest) = Except.ok () ↔
         (match e.lefts with
          | [] => claim_entries_ordered (some e.category) pl'' rest
          | l0 :: _ =>
            match pl'' with
            | some pl3 =>
              strLt (pyLower pl3) (pyLower l0) &&
                claim_entries_ordered (some e.category) (some l0) rest
            | none => claim_entries_ordered (some e.category) (some l0) rest) = true) := by
      intro pl''
      cases hlq : e.lefts with
      | nil =>
        rw [order_first_left_nil pl'' hlq]
        exact ih (some e.category) pl''
      | cons l0 ltl =>
        cases pl'' with
        | none =>
          rw [order_first_left_cons_none hlq]
          exact ih (some e.category) (some l0)
        | some p =>
          rw [order_first_left_cons_some p hlq]
          show _ ↔ (strLt (pyLower p) (pyLower l0) &&
              claim_entries_ordered (some e.category) (some l0) rest) = true
          cases hcmp : strLt (pyLower p) (pyLower l0) with
          | true => exact ih (some e.category) (some l0)
          | false => simp
    cases pc with
    | none =>
      rw [claim_cons_none]
      exact hfl pl
    | some c =>
      rw [show order_run (some c) pl (e :: rest) =
          (match order_entry (some c) pl e with
           | Except.error er => Except.error er
           | Except.ok pl' => order_run (some e.category) pl' rest) from rfl,
        order_entry_some, claim_cons_some]
      by_cases hle : strLe c e.category = true
      · rw [if_pos hle]
        have hlt : strLt e.category c = false := by
          have h2 : (!(strLt e.category c)) = true := hle
          simpa using h2
        rw [if_neg (by rw [hlt]; exact Bool.false_ne_true)]
        exact hfl _
      · rw [if_neg hle]
        have hlt : strLt e.category c = true := by
          have h2 : ¬ ((!(strLt e.category c)) = true) := hle
          simpa using h2
        rw [if_pos hlt]
        simp

theorem order_entry_error {pc pl : Option String} {e : Entry} {er : VErr}
    (h : order_entry pc pl e = Except.error er) :
    er = VErr.sortingCategoryOrder ∨ er = VErr.sortingFirstLeft := by
  have hofl : ∀ pl'' : Option String, order_first_left pl'' e = Except.error er →
      er = VErr.sortingFirstLeft := by
    intro pl'' h2
    cases hlq : e.lefts with
    | nil =>
      rw [order_first_left_nil pl'' hlq] at h2
      exact absurd h2 (by simp)
    | cons l0 ltl =>
      cases pl'' with
      | none =>
        rw [order_first_left_cons_none hlq] at h2
        exact absurd h2 (by simp)
      | some p =>
        rw [order_first_left_cons_some p hlq] at h2
        by_cases hc : strLt (pyLower p) (pyLower l0) = true
        · rw [if_pos hc] at h2
          exact absurd h2 (by simp)
        · rw [if_neg hc] at h2
          exact (Except.error.inj h2).symm
  cases pc with
  | none => exact Or.inr (hofl pl (by rw [← order_entry_none pl e]; exact h))
  | some c =>
    rw [order_entry_some] at h
    by_cases hlt : strLt e.category c = true
    · rw [if_pos hlt] at h
      exact Or.inl (Except.error.inj h).symm
    · rw [if_neg hlt] at h
      exact Or.inr (hofl _ h)

theorem order_run_error :
    ∀ {es : List Entry} {pc pl : Option String} {er : VErr},
    order_run pc pl es = Except.error er →
    er = VErr.sortingCategoryOrder ∨ er = VErr.sortingFirstLeft := by
  intro es
  induction es with
  | nil =>
    intro pc pl er h
    exact absurd h (by rw [order_run]; simp)
  | cons e rest ih =>
    intro pc pl er h
    rw [order_run] at h
    cases ho : order_entry pc pl e with
    | error er' =>
      rw [ho] at h
      rw [← Except.error.inj h]
      exact order_entry_error ho
    | ok pl' =>
      rw [ho] at h
      exact ih h

theorem validate_entry_sides_eq_order {A : FlagTable} {e : Entry}
    (h : entry_checks_ok A e) (pl : Option String) :
    validate_entry_sides A pl e = order_first_left pl e := by
  obtain ⟨hl, hr, htail⟩ := h
  rw [validate_entry_sides, if_neg (fun hc => hc hl), if_neg (fun hc => hc hr)]
  rw [validate_entry_first_left, order_first_left]
  cases hlq : e.lefts with
  | nil => exact validate_entry_tail_of_ok htail pl
  | cons l0 ltl =>
    cases pl with
    | none => exact validate_entry_tail_of_ok htail (some l0)
    | some p =>
      show (if strLe (pyLower l0) (pyLower p) = true
          then (Except.error VErr.sortingFirstLeft : Except VErr (Option String))
          else validate_entry_tail A (some l0) e) =
        (if strLe (pyLower l0) (pyLower p) = true
          then (Except.error VErr.sortingFirstLeft : Except VErr (Option String))
          else Except.ok (some l0))
      by_cases hcmp : strLe (pyLower l0) (pyLower p) = true
      · rw [if_pos hcmp, if_pos hcmp]
      · rw [if_neg hcmp, if_neg hcmp]
        exact validate_entry_tail_of_ok htail (some l0)

theorem validate_entry_eq_order {A : FlagTable} {e : Entry}
    (h : entry_checks_ok A e) (pc pl : Option String) :
    validate_entry A pc pl e = order_entry pc pl e := by
  rw [validate_entry.eq_def, order_entry.eq_def]
  cases pc with
  | none => exact validate_entry_sides_eq_order h pl
  | some c =>
    show (if strLt e.category c = true
        then (Except.error VErr.sortingCategoryOrder : Except VErr (Option String))
        else validate_entry_sides A (if c ≠ e.category then none else pl) e) =
      (if strLt e.category c = true
        then (Except.error VErr.sortingCategoryOrder : Except VErr (Option String))
        else order_first_left (if c ≠ e.category then none else pl) e)
    by_cases hlt : strLt e.category c = true
    · rw [if_pos hlt, if_pos hlt]
    · rw [if_neg hlt, if_neg hlt]
      exact validate_entry_sides_eq_order h _

theorem validate_entries_eq_order_run {A : FlagTable} :
    ∀ {pc pl : Option String} {es : List Entry},
    (∀ e ∈ es, entry_checks_ok A e) →
    validate_entries A pc pl es = order_run pc pl es := by
  intro pc pl es
  induction es generalizing pc pl with
  | nil => intro _; rfl
  | cons e0 rest ih =>
    intro h
    rw [validate_entries, order_run,
      validate_entry_eq_order (h e0 (List.mem_cons_self e0 rest))]
    cases ho : order_entry pc pl e0 with
    | error er => rfl
    | ok pl' => exact ih (fun e he => h e (List.mem_cons_of_mem e0 he))

/-- C7: under the non-ordering checks (side sortedness, flag lists,
add-category lists all fine, top-level categories sorted), validation
succeeds exactly when the entries are non-decreasing by category and, with
the recorded first-left resetting at each category change, every entry with
a non-empty `lefts` has a first left phrase strictly greater
case-insensitively than the recorded one; when this ordering condition
fails, the raised error carries the `"sorting error"` discriminator. -/
theorem C7_entry_ordering (spec : GrammarSpec)
    (htlc : spec.metadata.top_level_categories =
      pySortedStr spec.metadata.top_level_categories)
    (hchecks : ∀ e ∈ spec.entries,
      entry_checks_ok (spec.metadata.flags.getD []) e) :
    (validate_grammar spec = Except.ok () ↔ claim_order_ok spec.entries = true) ∧
    (claim_order_ok spec.entries = false →
      ∃ er, validate_grammar spec = Except.error er ∧ msgKind er = ErrKind.sorting) := by
  have hg : validate_grammar spec =
      validate_entries (spec.metadata.flags.getD []) none none spec.entries := by
    rw [validate_grammar, if_neg (fun hc => hc htlc)]
  rw [hg, validate_entries_eq_order_run hchecks]
  constructor
  · exact order_run_ok_iff spec.entries none none
  · intro hfalse
    cases hres : order_run none none spec.entries with
    | ok u =>
      cases u
      have hco : claim_order_ok spec.entries = true :=
        (order_run_ok_iff spec.entries none none).mp hres
      rw [hco] at hfalse
      exact absurd hfalse (by simp)
    | error er =>
      refine ⟨er, rfl, ?_⟩
      rcases order_run_error hres with h | h <;> rw [h] <;> rfl

/-- Witness for C7_entry_ordering at a spec whose two same-category entries
have first left phrases out of order but satisfy every other check. -/
theorem C7_witness :
    (misordered_spec.metadata.top_level_categories =
      pySortedStr misordered_spec.metadata.top_level_categories) ∧
    (∀ e ∈ misordered_spec.entries,
      entry_checks_ok (misordered_spec.metadata.flags.getD []) e) ∧
    ((validate_grammar misordered_spec = Except.ok () ↔
        claim_order_ok misordered_spec.entries = true) ∧
      (claim_order_ok misordered_spec.entries = false →
        ∃ er, validate_grammar misordered_spec = Except.error er ∧
          msgKind er = ErrKind.sorting)) :=
  ⟨by decide, by decide, C7_entry_ordering misordered_spec (by decide) (by decide)⟩

/-! ## Category index lemmas -/

theorem setAdd_mem_self (s : List SentencePart) (v : SentencePart) : v ∈ setAdd s v := by
  rw [setAdd]
  by_cases h : v ∈ s
  · rw [if_pos h]
    exact h
  · rw [if_neg h]
    exact List.mem_append_right s (List.mem_singleton_self v)

theorem setAdd_mem_mono {s : List SentencePart} {v : SentencePart} (v' : SentencePart)
    (h : v ∈ s) : v ∈ setAdd s v' := by
  rw [setAdd]
  by_cases h' : v' ∈ s
  · rw [if_pos h']
    exact h
  · rw [if_neg h']
    exact List.mem_append_left _ h

theorem setAdd_idem {s : List SentencePart} {v : SentencePart} (h : v ∈ s) :
    setAdd s v = s := by
  rw [setAdd, if_pos h]

theorem setAdd_nodup {s : List SentencePart} (v : SentencePart) (h : s.Nodup) :
    (setAdd s v).Nodup := by
  rw [setAdd]
  by_cases h' : v ∈ s
  · rw [if_pos h']
    exact h
  · rw [if_neg h']
    rw [List.nodup_append]
    exact ⟨h, List.nodup_singleton v, by simpa using h'⟩

theorem memIndex_indexAdd_self (idx : CatIndex) (c : String) (v : SentencePart) :
    memIndex (indexAdd idx c v) c v := by
  induction idx with
  | nil =>
    refine ⟨[v], ?_, List.mem_singleton_self v⟩
    rw [indexAdd, indexGet, if_pos rfl]
  | cons p rest ih =>
    obtain ⟨k, s⟩ := p
    rw [indexAdd]
    by_cases hk : k = c
    · rw [if_pos hk]
      refine ⟨setAdd s v, ?_, setAdd_mem_self s v⟩
      rw [indexGet, if_pos hk]
    · rw [if_neg hk]
      obtain ⟨s0, hg, hm⟩ := ih
      exact ⟨s0, by rw [indexGet, if_neg hk]; exact hg, hm⟩

theorem memIndex_indexAdd_mono {idx : CatIndex} {c : String} {v : SentencePart}
    (h : memIndex idx c v) (c' : String) (v' : SentencePart) :
    memIndex (indexAdd idx c' v') c v := by
  induction idx with
  | nil =>
    obtain ⟨s, hg, _⟩ := h
    rw [indexGet] at hg
    exact absurd hg (by simp)
  | cons p rest ih =>
    obtain ⟨k, s⟩ := p
    obtain ⟨s0, hg, hm⟩ := h
    rw [indexGet] at hg
    rw [indexAdd]
    by_cases hk : k = c'
    · rw [if_pos hk]
      by_cases hc : k = c
      · rw [if_pos hc] at hg
        refine ⟨setAdd s v', ?_, ?_⟩
        · rw [indexGet, if_pos hc]
        · have hs : s0 = s := (Option.some.inj hg).symm
          exact setAdd_mem_mono v' (hs ▸ hm)
      · rw [if_neg hc] at hg
        exact ⟨s0, by rw [indexGet, if_neg hc]; exact hg, hm⟩
    · rw [if_neg hk]
      by_cases hc : k = c
      · rw [if_pos hc] at hg
        exact ⟨s0, by rw [indexGet, if_pos hc]; exact hg, hm⟩
      · rw [if_neg hc] at hg
        obtain ⟨s1, hg1, hm1⟩ := ih ⟨s0, hg, hm⟩
        exact ⟨s1, by rw [indexGet, if_neg hc]; exact hg1, hm1⟩

theorem foldl_indexAdd_mono (v' : SentencePart) :
    ∀ (acs : List String) (idx : CatIndex) {c : String} {v : SentencePart},
    memIndex idx c v →
    memIndex (acs.foldl (fun acc ac => indexAdd acc ac v') idx) c v := by
  intro acs
  induction acs with
  | nil =>
    intro idx c v h
    exact h
  | cons a rest ih =>
    intro idx c v h
    exact ih _ (memIndex_indexAdd_mono h a v')

theorem foldl_indexAdd_mem (v : SentencePart) :
    ∀ (acs : List String) (idx : CatIndex) {c : String}, c ∈ acs →
    memIndex (acs.foldl (fun acc ac => indexAdd acc ac v) idx) c v := by
  intro acs
  induction acs with
  | nil =>
    intro idx c h
    cases h
  | cons a rest ih =>
    intro idx c h
    cases h with
    | head => exact foldl_indexAdd_mono v rest _ (memIndex_indexAdd_self idx a v)
    | tail _ hmem => exact ih _ hmem

theorem insertVariant_mem (category txt : String) (opts : List String)
    (acs : List String) (idx : CatIndex) {c : String} (h : c = category ∨ c ∈ acs) :
    memIndex (insertVariant category txt opts acs idx) c ⟨txt, opts⟩ := by
  rw [insertVariant]
  cases h with
  | inl hc =>
    subst hc
    exact foldl_indexAdd_mono _ acs _ (memIndex_indexAdd_self idx c ⟨txt, opts⟩)
  | inr hc => exact foldl_indexAdd_mem _ acs _ hc

theorem insertVariant_mono (category txt : String) (opts : List String)
    (acs : List String) {idx : CatIndex} {c : String} {v : SentencePart}
    (h : memIndex idx c v) :
    memIndex (insertVariant category txt opts acs idx) c v := by
  rw [insertVariant]
  exact foldl_indexAdd_mono _ acs _ (memIndex_indexAdd_mono h category ⟨txt, opts⟩)

theorem insertVariants_mono (category : String) :
    ∀ (triples : List (String × List String × List String)) (idx : CatIndex)
    {c : String} {v : SentencePart}, memIndex idx c v →
    memIndex (insertVariants category triples idx) c v := by
  intro triples
  induction triples with
  | nil =>
    intro idx c v h
    exact h
  | cons t rest ih =>
    intro idx c v h
    obtain ⟨t1, t2, t3⟩ := t
    rw [insertVariants]
    exact ih _ (insertVariant_mono category t1 t2 t3 h)

theorem insertVariants_mem (category : String) :
    ∀ (triples : List (String × List String × List String)) (idx : CatIndex)
    {txt : String} {opts : List String} {acs : List String} {c : String},
    (txt, opts, acs) ∈ triples → (c = category ∨ c ∈ acs) →
    memIndex (insertVariants category triples idx) c ⟨txt, opts⟩ := by
  intro triples
  induction triples with
  | nil =>
    intro idx txt opts acs c h _
    cases h
  | cons t rest ih =>
    intro idx txt opts acs c h hc
    obtain ⟨t1, t2, t3⟩ := t
    rw [insertVariants]
    cases h with
    | head =>
      exact insertVariants_mono category rest _
        (insertVariant_mem category txt opts acs idx hc)
    | tail _ hmem => exact ih _ hmem hc

theorem indexAdd_pairs_nodup {idx : CatIndex}
    (hidx : ∀ p ∈ idx, (Prod.snd p).Nodup) (c : String) (v : SentencePart) :
    ∀ p ∈ indexAdd idx c v, (Prod.snd p).Nodup := by
  induction idx with
  | nil =>
    intro p hp
    rw [indexAdd] at hp
    rw [List.mem_singleton] at hp
    rw [hp]
    exact List.nodup_singleton v
  | cons q rest ih =>
    obtain ⟨k, s⟩ := q
    intro p hp
    rw [indexAdd] at hp
    by_cases hk : k = c
    · rw [if_pos hk] at hp
      cases hp with
      | head => exact setAdd_nodup v (hidx (k, s) (List.mem_cons_self _ _))
      | tail _ hmem => exact hidx p (List.mem_cons_of_mem _ hmem)
    · rw [if_neg hk] at hp
      cases hp with
      | head => exact hidx (k, s) (List.mem_cons_self _ _)
      | tail _ hmem =>
        exact ih (fun q hq => hidx q (List.mem_cons_of_mem _ hq)) p hmem

theorem indexGet_mem_pairs : ∀ {idx : CatIndex} {c : String} {s : List SentencePart},
    indexGet idx c = some s → (c, s) ∈ idx := by
  intro idx
  induction idx with
  | nil =>
    intro c s hg
    rw [indexGet] at hg
    exact absurd hg (by simp)
  | cons q rest ih =>
    obtain ⟨k, s'⟩ := q
    intro c s hg
    rw [indexGet] at hg
    by_cases hk : k = c
    · rw [if_pos hk] at hg
      have hs : s' = s := Option.some.inj hg
      rw [← hk, ← hs]
      exact List.mem_cons_self _ _
    · rw [if_neg hk] at hg
      exact List.mem_cons_of_mem _ (ih hg)

/-! ## Flag resolution and index construction lemmas -/

theorem flagKnown_lookup {tbl : FlagTable} {f : String} (h : flagKnown tbl f = true) :
    ∃ v, lookupTable tbl f = some v := by
  induction tbl with
  | nil =>
    rw [flagKnown] at h
    exact absurd h (by simp)
  | cons p rest ih =>
    obtain ⟨k, v⟩ := p
    by_cases hk : k = f
    · exact ⟨v, by rw [lookupTable, if_pos hk]⟩
    · have h2 : flagKnown rest f = true := by
        rw [flagKnown] at h ⊢
        simp only [List.map_cons, List.contains_cons] at h
        cases h3 : (f == k) with
        | true =>
          have hfk : f = k := by simpa using h3
          exact absurd hfk (fun hc => hk hc.symm)
        | false =>
          rw [h3] at h
          simpa using h
      obtain ⟨v', hv⟩ := ih h2
      exact ⟨v', by rw [lookupTable, if_neg hk]; exact hv⟩

theorem resolveFlagNames_ok {tbl : FlagTable} :
    ∀ {fl : List String}, (∀ f ∈ fl, flagKnown tbl f = true) →
    ∃ vs, resolveFlagNames tbl fl = Except.ok vs := by
  intro fl
  induction fl with
  | nil =>
    intro _
    exact ⟨[], rfl⟩
  | cons f rest ih =>
    intro h
    obtain ⟨v, hv⟩ := flagKnown_lookup (h f (List.mem_cons_self f rest))
    obtain ⟨vs, hvs⟩ := ih (fun f' hf' => h f' (List.mem_cons_of_mem f hf'))
    exact ⟨v :: vs, by rw [resolveFlagNames, hv, hvs]⟩

theorem resolveOpts_ok {tbl : FlagTable} {fl : List String}
    (h : ∀ f ∈ fl, flagKnown tbl f = true) :
    ∃ o, resolveOpts tbl fl = Except.ok o := by
  obtain ⟨vs, hvs⟩ := resolveFlagNames_ok h
  exact ⟨pySortedStr vs, by rw [resolveOpts, hvs]⟩

theorem resolveAll_ok {tbl : FlagTable} :
    ∀ {fls : List (List String)},
    (∀ fl ∈ fls, ∀ f ∈ fl, flagKnown tbl f = true) →
    ∃ os, resolveAll tbl fls = Except.ok os := by
  intro fls
  induction fls with
  | nil =>
    intro _
    exact ⟨[], rfl⟩
  | cons fl rest ih =>
    intro h
    obtain ⟨o, ho⟩ := resolveOpts_ok (h fl (List.mem_cons_self fl rest))
    obtain ⟨os, hos⟩ := ih (fun fl' hfl' => h fl' (List.mem_cons_of_mem fl hfl'))
    exact ⟨o :: os, by rw [resolveAll, ho, hos]⟩

theorem resolveAll_defaults (tbl : FlagTable) :
    ∀ xs : List String, resolveAll tbl (defaultsFor xs) = Except.ok (defaultsFor xs) := by
  intro xs
  induction xs with
  | nil => rfl
  | cons x xs ih =>
    rw [show resolveAll tbl (defaultsFor (x :: xs)) =
        (match resolveAll tbl (defaultsFor xs) with
         | Except.error er => Except.error er
         | Except.ok os => Except.ok ([] :: os)) from rfl, ih]
    rfl

theorem check_flags_resolvable {tbl : FlagTable} {xs : List String}
    {fl : Option (List (List String))} {lenErr : VErr}
    (h : check_flags_entry tbl xs fl lenErr = Except.ok ()) :
    ∃ os, resolveAll tbl (fl.getD (defaultsFor xs)) = Except.ok os := by
  cases fl with
  | none => exact ⟨defaultsFor xs, resolveAll_defaults tbl xs⟩
  | some fls =>
    simp only [check_flags_entry] at h
    by_cases hlen : fls.length ≠ xs.length
    · rw [if_pos hlen] at h
      exact absurd h (by simp)
    · rw [if_neg hlen] at h
      have hkn := (validate_flags_ok_iff tbl fls).mp h
      exact resolveAll_ok
        (fun fl' hfl' => (validate_flag_names_ok_iff tbl fl').mp ((hkn fl' hfl').2))

theorem buildEntry_ok {tbl : FlagTable} {e : Entry} (h : entry_tail_ok tbl e)
    (L R : CatIndex) :
    ∃ lo ro,
      resolveAll tbl (e.lefts_flags.getD (defaultsFor e.lefts)) = Except.ok lo ∧
      resolveAll tbl (e.rights_flags.getD (defaultsFor e.rights)) = Except.ok ro ∧
      buildEntry tbl e L R = Except.ok
        (insertVariants e.category
          (zip3 e.lefts lo (e.lefts_add_categories.getD (defaultsFor e.lefts))) L,
         insertVariants e.category
          (zip3 e.rights ro (e.rights_add_categories.getD (defaultsFor e.rights))) R) := by
  obtain ⟨h1, h2, _, _⟩ := h
  obtain ⟨lo, hlo⟩ := check_flags_resolvable h1
  obtain ⟨ro, hro⟩ := check_flags_resolvable h2
  exact ⟨lo, ro, hlo, hro, by rw [buildEntry, hlo, hro]⟩

theorem buildIndexes_mono :
    ∀ {es : List Entry} {tbl : FlagTable} {L R L' R' : CatIndex},
    buildIndexes tbl es L R = Except.ok (L', R') →
    (∀ c v, memIndex L c v → memIndex L' c v) ∧
    (∀ c v, memIndex R c v → memIndex R' c v) := by
  intro es
  induction es with
  | nil =>
    intro tbl L R L' R' h
    rw [buildIndexes] at h
    have h2 := Except.ok.inj h
    obtain ⟨hL, hR⟩ := Prod.mk.injEq .. ▸ h2
    rw [Prod.mk.injEq] at h2
    rw [← h2.1, ← h2.2]
    exact ⟨fun c v hv => hv, fun c v hv => hv⟩
  | cons e rest ih =>
    intro tbl L R L' R' h
    rw [buildIndexes] at h
    cases hbe : buildEntry tbl e L R with
    | error er =>
      rw [hbe] at h
      exact absurd h (by simp)
    | ok LR1 =>
      rw [hbe] at h
      have hih := ih h
      rw [buildEntry] at hbe
      cases hblo : resolveAll tbl (e.lefts_flags.getD (defaultsFor e.lefts)) with
      | error er =>
        rw [hblo] at hbe
        exact absurd hbe (by simp)
      | ok lo =>
        rw [hblo] at hbe
        cases hbro : resolveAll tbl (e.rights_flags.getD (defaultsFor e.rights)) with
        | error er =>
          rw [hbro] at hbe
          exact absurd hbe (by simp)
        | ok ro =>
          rw [hbro] at hbe
          have hLR := Except.ok.inj hbe
          constructor
          · intro c v hv
            apply hih.1
            rw [← hLR]
            exact insertVariants_mono _ _ _ hv
          · intro c v hv
            apply hih.2
            rw [← hLR]
            exact insertVariants_mono _ _ _ hv

theorem buildIndexes_ok {tbl : FlagTable} :
    ∀ {es : List Entry}, (∀ e ∈ es, entry_tail_ok tbl e) →
    ∀ L R : CatIndex, ∃ LR, buildIndexes tbl es L R = Except.ok LR := by
  intro es
  induction es with
  | nil =>
    intro _ L R
    exact ⟨(L, R), rfl⟩
  | cons e rest ih =>
    intro h L R
    obtain ⟨lo, ro, _, _, hbe⟩ := buildEntry_ok (h e (List.mem_cons_self e rest)) L R
    obtain ⟨LR, hLR⟩ := ih (fun e' he' => h e' (List.mem_cons_of_mem e he')) _ _
    exact ⟨LR, by rw [buildIndexes, hbe]; exact hLR⟩

theorem zip3_resolveAll_mem {tbl : FlagTable} :
    ∀ {xs : List String} {fls acs os : List (List String)}
    {x : String} {fl ac o : List String},
    resolveAll tbl fls = Except.ok os → (x, fl, ac) ∈ zip3 xs fls acs →
    resolveOpts tbl fl = Except.ok o → (x, o, ac) ∈ zip3 xs os acs := by
  intro xs
  induction xs with
  | nil =>
    intro fls acs os x fl ac o _ hz _
    rw [show zip3 ([] : List String) fls acs = [] from rfl] at hz
    cases hz
  | cons x' xs' ih =>
    intro fls acs os x fl ac o hra hz hro
    cases fls with
    | nil =>
      rw [show zip3 (x' :: xs') ([] : List (List String)) acs = [] from rfl] at hz
      cases hz
    | cons fl' fls' =>
      cases acs with
      | nil =>
        rw [show zip3 (x' :: xs') (fl' :: fls') ([] : List (List String)) = []
          from rfl] at hz
        cases hz
      | cons ac' acs' =>
        rw [show zip3 (x' :: xs') (fl' :: fls') (ac' :: acs') =
            (x', fl', ac') :: zip3 xs' fls' acs' from rfl] at hz
        rw [resolveAll] at hra
        cases hro' : resolveOpts tbl fl' with
        | error er =>
          rw [hro'] at hra
          exact absurd hra (by simp)
        | ok o' =>
          rw [hro'] at hra
          cases hra' : resolveAll tbl fls' with
          | error er =>
            rw [hra'] at hra
            exact absurd hra (by simp)
          | ok os' =>
            rw [hra'] at hra
            have hos : o' :: os' = os := Except.ok.inj hra
            cases hz with
            | head =>
              rw [hro'] at hro
              have ho : o = o' := (Except.ok.inj hro).symm
              rw [← hos, ho]
              exact List.mem_cons_self _ _
            | tail _ hmem =>
              rw [← hos]
              exact List.mem_cons_of_mem _ (ih hra' hmem hro)

theorem buildIndexes_mem_left :
    ∀ {es : List Entry} {tbl : FlagTable} {L0 R0 L R : CatIndex} {e : Entry}
    {c : String} {v : SentencePart},
    buildIndexes tbl es L0 R0 = Except.ok (L, R) → e ∈ es →
    contributesLeft tbl e c v → memIndex L c v := by
  intro es
  induction es with
  | nil =>
    intro tbl L0 R0 L R e c v _ he _
    cases he
  | cons e0 rest ih =>
    intro tbl L0 R0 L R e c v hb he hcon
    rw [buildIndexes] at hb
    cases hbe : buildEntry tbl e0 L0 R0 with
    | error er =>
      rw [hbe] at hb
      exact absurd hb (by simp)
    | ok LR1 =>
      rw [hbe] at hb
      cases he with
      | head =>
        obtain ⟨vt, vo⟩ := v
        obtain ⟨l, fl, acs, hz, hro, htxt, hc⟩ := hcon
        rw [buildEntry] at hbe
        cases hblo : resolveAll tbl (e0.lefts_flags.getD (defaultsFor e0.lefts)) with
        | error er =>
          rw [hblo] at hbe
          exact absurd hbe (by simp)
        | ok lo =>
          rw [hblo] at hbe
          cases hbro : resolveAll tbl (e0.rights_flags.getD (defaultsFor e0.rights)) with
          | error er =>
            rw [hbro] at hbe
            exact absurd hbe (by simp)
          | ok ro =>
            rw [hbro] at hbe
            have hLR := Except.ok.inj hbe
            have hz' := zip3_resolveAll_mem hblo hz hro
            have hv : memIndex LR1.1 c ⟨vt, vo⟩ := by
              rw [← hLR]
              have hmem := insertVariants_mem e0.category _ L0 hz' hc
              rw [show (vt : String) = l from htxt]
              exact hmem
            exact (buildIndexes_mono hb).1 c ⟨vt, vo⟩ hv
      | tail _ hmem => exact ih hb hmem hcon

theorem buildIndexes_mem_right :
    ∀ {es : List Entry} {tbl : FlagTable} {L0 R0 L R : CatIndex} {e : Entry}
    {c : String} {v : SentencePart},
    buildIndexes tbl es L0 R0 = Except.ok (L, R) → e ∈ es →
    contributesRight tbl e c v → memIndex R c v := by
  intro es
  induction es with
  | nil =>
    intro tbl L0 R0 L R e c v _ he _
    cases he
  | cons e0 rest ih =>
    intro tbl L0 R0 L R e c v hb he hcon
    rw [buildIndexes] at hb
    cases hbe : buildEntry tbl e0 L0 R0 with
    | error er =>
      rw [hbe] at hb
      exact absurd hb (by simp)
    | ok LR1 =>
      rw [hbe] at hb
      cases he with
      | head =>
        obtain ⟨vt, vo⟩ := v
        obtain ⟨r, fl, acs, hz, hro, htxt, hc⟩ := hcon
        rw [buildEntry] at hbe
        cases hblo : resolveAll tbl (e0.lefts_flags.getD (defaultsFor e0.lefts)) with
        | error er =>
          rw [hblo] at hbe
          exact absurd hbe (by simp)
        | ok lo =>
          rw [hblo] at hbe
          cases hbro : resolveAll tbl (e0.rights_flags.getD (defaultsFor e0.rights)) with
          | error er =>
            rw [hbro] at hbe
            exact absurd hbe (by simp)
          | ok ro =>
            rw [hbro] at hbe
            have hLR := Except.ok.inj hbe
            have hz' := zip3_resolveAll_mem hbro hz hro
            have hv : memIndex LR1.2 c ⟨vt, vo⟩ := by
              rw [← hLR]
              have hmem := insertVariants_mem e0.category _ R0 hz' hc
              rw [show (vt : String) = r from htxt]
              exact hmem
            exact (buildIndexes_mono hb).2 c ⟨vt, vo⟩ hv
      | tail _ hmem => exact ih hb hmem hcon

theorem foldl_indexAdd_pairs_nodup (v : SentencePart) :
    ∀ (acs : List String) (idx : CatIndex), (∀ p ∈ idx, (Prod.snd p).Nodup) →
    ∀ p ∈ acs.foldl (fun acc ac => indexAdd acc ac v) idx, (Prod.snd p).Nodup := by
  intro acs
  induction acs with
  | nil =>
    intro idx h
    exact h
  | cons a rest ih =>
    intro idx h
    exact ih _ (indexAdd_pairs_nodup h a v)

theorem insertVariant_pairs_nodup (category txt : String) (opts acs : List String)
    {idx : CatIndex} (h : ∀ p ∈ idx, (Prod.snd p).Nodup) :
    ∀ p ∈ insertVariant category txt opts acs idx, (Prod.snd p).Nodup := by
  rw [insertVariant]
  exact foldl_indexAdd_pairs_nodup _ acs _ (indexAdd_pairs_nodup h category ⟨txt, opts⟩)

theorem insertVariants_pairs_nodup (category : String) :
    ∀ (triples : List (String × List String × List String)) (idx : CatIndex),
    (∀ p ∈ idx, (Prod.snd p).Nodup) →
    ∀ p ∈ insertVariants category triples idx, (Prod.snd p).Nodup := by
  intro triples
  induction triples with
  | nil =>
    intro idx h
    exact h
  | cons t rest ih =>
    intro idx h
    obtain ⟨t1, t2, t3⟩ := t
    rw [insertVariants]
    exact ih _ (insertVariant_pairs_nodup category t1 t2 t3 h)

theorem buildIndexes_pairs_nodup :
    ∀ {es : List Entry} {tbl : FlagTable} {L R L' R' : CatIndex},
    buildIndexes tbl es L R = Except.ok (L', R') →
    (∀ p ∈ L, (Prod.snd p).Nodup) → (∀ p ∈ R, (Prod.snd p).Nodup) →
    (∀ p ∈ L', (Prod.snd p).Nodup) ∧ (∀ p ∈ R', (Prod.snd p).Nodup) := by
  intro es
  induction es with
  | nil =>
    intro tbl L R L' R' h hL hR
    rw [buildIndexes] at h
    have h2 := Except.ok.inj h
    rw [Prod.mk.injEq] at h2
    rw [← h2.1, ← h2.2]
    exact ⟨hL, hR⟩
  | cons e rest ih =>
    intro tbl L R L' R' h hL hR
    rw [buildIndexes] at h
    cases hbe : buildEntry tbl e L R with
    | error er =>
      rw [hbe] at h
      exact absurd h (by simp)
    | ok LR1 =>
      rw [hbe] at h
      rw [buildEntry] at hbe
      cases hblo : resolveAll tbl (e.lefts_flags.getD (defaultsFor e.lefts)) with
      | error er =>
        rw [hblo] at hbe
        exact absurd hbe (by simp)
      | ok lo =>
        rw [hblo] at hbe
        cases hbro : resolveAll tbl (e.rights_flags.getD (defaultsFor e.rights)) with
        | error er =>
          rw [hbro] at hbe
          exact absurd hbe (by simp)
        | ok ro =>
          rw [hbro] at hbe
          have hLR := Except.ok.inj hbe
          refine ih h ?_ ?_
          · rw [← hLR]
            exact insertVariants_pairs_nodup _ _ _ hL
          · rw [← hLR]
            exact insertVariants_pairs_nodup _ _ _ hR

/-! ## Claim C3: multi-category fan-out -/

/-- C3: for every entry of a validated GrammarSpec (with a present flag
table), every left phrase variant is inserted in the left index under the
entry's base category and under every category of its add-category set, so
it occurs among the sorted alternatives of each of those categories' left
productions; symmetrically for right phrases in the right index. -/
theorem C3_multi_category_fanout (spec : GrammarSpec) (tbl : FlagTable)
    (hflags : spec.metadata.flags = some tbl)
    (hv : validate_grammar spec = Except.ok ())
    (e : Entry) (he : e ∈ spec.entries) :
    ∃ L R, buildIndexes tbl spec.entries [] [] = Except.ok (L, R) ∧
      (∀ c v, contributesLeft tbl e c v →
        memIndex L c v ∧ ∀ s, indexGet L c = some s → v ∈ pySortedSP s) ∧
      (∀ c v, contributesRight tbl e c v →
        memIndex R c v ∧ ∀ s, indexGet R c = some s → v ∈ pySortedSP s) := by
  have htails := validate_entries_ok_mem (validate_grammar_ok_entries hv).2
  rw [show spec.metadata.flags.getD [] = tbl from by rw [hflags]; rfl] at htails
  obtain ⟨LR, hLR⟩ := buildIndexes_ok htails ([] : CatIndex) ([] : CatIndex)
  obtain ⟨L, R⟩ := LR
  refine ⟨L, R, hLR, ?_, ?_⟩
  · intro c v hcon
    have hm := buildIndexes_mem_left hLR he hcon
    refine ⟨hm, ?_⟩
    intro s hs
    obtain ⟨s0, hg0, hmem⟩ := hm
    have hseq : s0 = s := Option.some.inj (hg0.symm.trans hs)
    exact ((pySort_perm spLe s).mem_iff).mpr (hseq ▸ hmem)
  · intro c v hcon
    have hm := buildIndexes_mem_right hLR he hcon
    refine ⟨hm, ?_⟩
    intro s hs
    obtain ⟨s0, hg0, hmem⟩ := hm
    have hseq : s0 = s := Option.some.inj (hg0.symm.trans hs)
    exact ((pySort_perm spLe s).mem_iff).mpr (hseq ▸ hmem)

/-- Witness for C3_multi_category_fanout at `fanout_spec`. -/
theorem C3_witness :
    fanout_spec.metadata.flags = some [("f", "formal")] ∧
    validate_grammar fanout_spec = Except.ok () ∧
    (⟨"base", ["hi"], ["yo"], some [["f"]], none, some [["other"]],
      some [["extra"]]⟩ : Entry) ∈ fanout_spec.entries ∧
    (∃ L R, buildIndexes [("f", "formal")] fanout_spec.entries [] [] =
        Except.ok (L, R) ∧
      (∀ c v, contributesLeft [("f", "formal")]
          ⟨"base", ["hi"], ["yo"], some [["f"]], none, some [["other"]],
            some [["extra"]]⟩ c v →
        memIndex L c v ∧ ∀ s, indexGet L c = some s → v ∈ pySortedSP s) ∧
      (∀ c v, contributesRight [("f", "formal")]
          ⟨"base", ["hi"], ["yo"], some [["f"]], none, some [["other"]],
            some [["extra"]]⟩ c v →
        memIndex R c v ∧ ∀ s, indexGet R c = some s → v ∈ pySortedSP s)) :=
  ⟨rfl, rfl, by decide,
   C3_multi_category_fanout fanout_spec [("f", "formal")] rfl rfl
     ⟨"base", ["hi"], ["yo"], some [["f"]], none, some [["other"]], some [["extra"]]⟩
     (by decide)⟩

/-! ## Claim C4: duplicate collapse and idempotent insertion -/

/-- C4: when two entries of a validated GrammarSpec contribute a phrase
variant with identical `(text, options)` to the same category and role, the
sorted alternative list of that category-role production contains the
variant exactly once, and inserting an already-present variant into a
phrase set is a no-op. -/
theorem C4_duplicate_collapse (spec : GrammarSpec) (tbl : FlagTable)
    (L R I : CatIndex) (c : String) (v : SentencePart) (e1 e2 : Entry)
    (hflags : spec.metadata.flags = some tbl)
    (hv : validate_grammar spec = Except.ok ())
    (hb : buildIndexes tbl spec.entries [] [] = Except.ok (L, R))
    (h1 : e1 ∈ spec.entries) (h2 : e2 ∈ spec.entries)
    (hrole : (contributesLeft tbl e1 c v ∧ contributesLeft tbl e2 c v ∧ I = L) ∨
      (contributesRight tbl e1 c v ∧ contributesRight tbl e2 c v ∧ I = R)) :
    (∀ s, indexGet I c = some s → List.count v (pySortedSP s) = 1) ∧
    (∀ (s : List SentencePart) (v' : SentencePart), v' ∈ s → setAdd s v' = s) := by
  constructor
  · intro s hs
    have hpairs := buildIndexes_pairs_nodup hb (by intro p hp; cases hp)
      (by intro p hp; cases hp)
    have hmem : memIndex I c v := by
      cases hrole with
      | inl h =>
        rw [h.2.2]
        exact buildIndexes_mem_left hb h1 h.1
      | inr h =>
        rw [h.2.2]
        exact buildIndexes_mem_right hb h1 h.1
    have hnod : s.Nodup := by
      cases hrole with
      | inl h =>
        rw [h.2.2] at hs
        exact hpairs.1 (c, s) (indexGet_mem_pairs hs)
      | inr h =>
        rw [h.2.2] at hs
        exact hpairs.2 (c, s) (indexGet_mem_pairs hs)
    obtain ⟨s0, hg0, hvm⟩ := hmem
    have hseq : s0 = s := Option.some.inj (hg0.symm.trans hs)
    rw [pySortedSP, (pySort_perm spLe s).count_eq v]
    exact List.count_eq_one_of_mem hnod (hseq ▸ hvm)
  · intro s v' hm
    exact setAdd_idem hm

/-- Witness for C4_duplicate_collapse at `duplicate_spec`, whose two
entries both contribute `("x", ())` to the left role of category `"a"`. -/
theorem C4_witness :
    duplicate_spec.metadata.flags = some [] ∧
    validate_grammar duplicate_spec = Except.ok () ∧
    buildIndexes [] duplicate_spec.entries [] [] =
      Except.ok ([("a", [⟨"x", []⟩]), ("b", [⟨"x", []⟩])], []) ∧
    ((∀ s, indexGet [("a", [⟨"x", []⟩]), ("b", [⟨"x", []⟩])] "a" = some s →
        List.count ⟨"x", []⟩ (pySortedSP s) = 1) ∧
      (∀ (s : List SentencePart) (v' : SentencePart), v' ∈ s → setAdd s v' = s)) :=
  ⟨rfl, rfl, rfl,
   C4_duplicate_collapse duplicate_spec []
     [("a", [⟨"x", []⟩]), ("b", [⟨"x", []⟩])] [] [("a", [⟨"x", []⟩]), ("b", [⟨"x", []⟩])]
     "a" ⟨"x", []⟩
     ⟨"a", ["x"], [], none, none, none, none⟩
     ⟨"b", ["x"], [], none, none, some [["a"]], none⟩
     rfl rfl rfl (by decide) (by decide)
     (Or.inl ⟨⟨"x", [], [], by decide, rfl, rfl, Or.inl rfl⟩,
       ⟨"x", [], ["a"], by decide, rfl, rfl, Or.inr (by decide)⟩, rfl⟩)⟩

/-! ## Claim C1: the per-category production section -/

theorem spLt_eq (a b : SentencePart) :
    spLt a b = lexLt strLt (a.text :: a.options) (b.text :: b.options) := rfl

theorem spLt_trans (a b c : SentencePart) :
    spLt a b = true → spLt b c = true → spLt a c = true := by
  rw [spLt_eq, spLt_eq, spLt_eq]
  exact lexLt_trans strLt_trans strLt_conn _ _ _

theorem spLt_conn (a b : SentencePart) :
    spLt a b = false → spLt b a = false → a = b := by
  rw [spLt_eq, spLt_eq]
  intro h1 h2
  have h := lexLt_conn strLt_conn _ _ h1 h2
  cases a with
  | mk t1 o1 =>
    cases b with
    | mk t2 o2 =>
      injection h with ht ho
      rw [show t1 = t2 from ht, show o1 = o2 from ho]

theorem spLt_irrefl (a : SentencePart) : spLt a a = false := by
  rw [spLt_eq]
  exact lexLt_irrefl strLt_irrefl _

theorem spLe_trans : ∀ a b c : SentencePart,
    spLe a b = true → spLe b c = true → spLe a c = true :=
  ltToLe_trans spLt_trans spLt_conn

theorem spLe_total : ∀ a b : SentencePart, (spLe a b || spLe b a) = true :=
  ltToLe_total (ltAsymm_of_trans_irrefl spLt_trans spLt_irrefl)

theorem spLe_antisymm : ∀ a b : SentencePart,
    spLe a b = true → spLe b a = true → a = b :=
  ltToLe_antisymm spLt_conn

/-- The code's tuple comparison on `SentencePart` agrees with the
specification's "first by text, then by the options tuple" order. -/
theorem spLe_iff (a b : SentencePart) : spLe a b = true ↔ spec_sp_order a b := by
  rw [spec_sp_order]
  constructor
  · intro h
    have h2 : spLt b a = false := by
      have h3 : (!(spLt b a)) = true := h
      simpa using h3
    cases hab : strLt a.text b.text with
    | true => exact Or.inl rfl
    | false =>
      cases hba : strLt b.text a.text with
      | true =>
        rw [spLt, if_pos hba] at h2
        exact absurd h2 (by simp)
      | false =>
        refine Or.inr ⟨strLt_conn _ _ hab hba, ?_⟩
        rw [spLt, if_neg (by rw [hba]; exact Bool.false_ne_true),
          if_neg (by rw [hab]; exact Bool.false_ne_true)] at h2
        show (!(optsLt b.options a.options)) = true
        rw [h2]
        rfl
  · intro h
    show (!(spLt b a)) = true
    cases h with
    | inl hab =>
      have hba : strLt b.text a.text = false :=
        ltAsymm_of_trans_irrefl strLt_trans strLt_irrefl _ _ hab
      have h2 : spLt b a = false := by
        rw [spLt, if_neg (by rw [hba]; exact Bool.false_ne_true), if_pos hab]
      rw [h2]
      rfl
    | inr h2 =>
      obtain ⟨hteq, hopts⟩ := h2
      have h3 : optsLt b.options a.options = false := by
        have h4 : (!(optsLt b.options a.options)) = true := hopts
        simpa using h4
      have hba : strLt b.text a.text = false := by
        rw [hteq]
        exact strLt_irrefl _
      have hab : strLt a.text b.text = false := by
        rw [hteq]
        exact strLt_irrefl _
      have h5 : spLt b a = false := by
        rw [spLt, if_neg (by rw [hba]; exact Bool.false_ne_true),
          if_neg (by rw [hab]; exact Bool.false_ne_true)]
        exact h3
      rw [h5]
      rfl

/-- The two sorts of a phrase set — the code's by the tuple order, the
specification's by "text, then options" — coincide. -/
theorem pySortedSP_eq_spec (s : List SentencePart) :
    pySortedSP s = spec_sorted_variants s := by
  letI : IsTotal SentencePart spec_sp_order :=
    ⟨fun a b => by
      have h := spLe_total a b
      rw [Bool.or_eq_true] at h
      cases h with
      | inl h2 => exact Or.inl ((spLe_iff a b).mp h2)
      | inr h2 => exact Or.inr ((spLe_iff b a).mp h2)⟩
  letI : IsTrans SentencePart spec_sp_order :=
    ⟨fun a b c hab hbc => (spLe_iff a c).mp
      (spLe_trans a b c ((spLe_iff a b).mpr hab) ((spLe_iff b c).mpr hbc))⟩
  refine sorted_unique
    (fun a b hab hba =>
      spLe_antisymm a b ((spLe_iff a b).mpr hab) ((spLe_iff b a).mpr hba))
    ?_ ?_ ?_
  · exact (pySort_perm spLe s).trans (List.perm_insertionSort spec_sp_order s).symm
  · exact (pySort_sorted spLe spLe_trans spLe_total s).imp
      (fun h => (spLe_iff _ _).mp h)
  · exact List.sorted_insertionSort spec_sp_order s

theorem spec_ascending_eq (l : List String) : spec_ascending l = pySortedStr l :=
  (pySortedStr_eq_mergeSort l).symm

theorem spec_guards_eq (options : List String) :
    spec_guards options = flagStr options := by
  rw [spec_guards, spec_ascending_eq, flagStr]

theorem spec_alt_line_eq (symbol : String) (p : SentencePart) :
    spec_alt_line symbol p = alt_line symbol p := by
  rw [spec_alt_line, spec_guards_eq, alt_line]

theorem alt_lines_false (l : List SentencePart) :
    alt_lines false l = l.map (alt_line "|") := by
  induction l with
  | nil => rfl
  | cons p rest ih =>
    show alt_line "|" p :: alt_lines false rest = _
    rw [ih, List.map_cons]

theorem spec_alternatives_eq (s : List SentencePart) :
    spec_alternatives s = alt_lines true (pySortedSP s) := by
  rw [spec_alternatives, ← pySortedSP_eq_spec]
  cases h : pySortedSP s with
  | nil => rfl
  | cons p rest =>
    show spec_alt_line ":" p :: rest.map (spec_alt_line "|") =
      alt_line ":" p :: alt_lines false rest
    rw [alt_lines_false, spec_alt_line_eq,
      show spec_alt_line "|" = alt_line "|" from funext (spec_alt_line_eq "|")]

theorem production_pointwise (c roleName : String)
    (o : Option (List SentencePart)) :
    production_lines c roleName o =
      (match o with
       | some s => spec_production c roleName s
       | none => []) := by
  cases o with
  | none => rfl
  | some s =>
    show ((c ++ "_" ++ roleName) :: alt_lines true (pySortedSP s)) ++ ["    ;"] =
      ((c ++ "_" ++ roleName) :: spec_alternatives s) ++ ["    ;"]
    rw [spec_alternatives_eq]

theorem indexKeys_indexAdd_sub :
    ∀ {idx : CatIndex} {c a : String} {v : SentencePart},
    a ∈ indexKeys (indexAdd idx c v) → a ∈ indexKeys idx ∨ a = c := by
  intro idx
  induction idx with
  | nil =>
    intro c a v h
    rw [indexAdd] at h
    exact Or.inr (List.mem_singleton.mp h)
  | cons p rest ih =>
    obtain ⟨k, s⟩ := p
    intro c a v h
    rw [indexAdd] at h
    by_cases hk : k = c
    · rw [if_pos hk] at h
      exact Or.inl h
    · rw [if_neg hk] at h
      cases h with
      | head => exact Or.inl (List.mem_cons_self _ _)
      | tail _ hmem =>
        cases ih hmem with
        | inl h2 => exact Or.inl (List.mem_cons_of_mem _ h2)
        | inr h2 => exact Or.inr h2

theorem indexKeys_indexAdd_nodup :
    ∀ {idx : CatIndex} (c : String) (v : SentencePart),
    (indexKeys idx).Nodup → (indexKeys (indexAdd idx c v)).Nodup := by
  intro idx
  induction idx with
  | nil =>
    intro c v _
    rw [indexAdd]
    exact List.nodup_singleton c
  | cons p rest ih =>
    obtain ⟨k, s⟩ := p
    intro c v h
    replace h : (k :: indexKeys rest).Nodup := h
    rw [List.nodup_cons] at h
    rw [indexAdd]
    by_cases hk : k = c
    · rw [if_pos hk]
      rw [show indexKeys ((k, setAdd s v) :: rest) = k :: indexKeys rest from rfl,
        List.nodup_cons]
      exact h
    · rw [if_neg hk]
      rw [show indexKeys ((k, s) :: indexAdd rest c v) =
        k :: indexKeys (indexAdd rest c v) from rfl, List.nodup_cons]
      constructor
      · intro hmem
        cases indexKeys_indexAdd_sub hmem with
        | inl h2 => exact h.1 h2
        | inr h2 => exact hk h2
      · exact ih c v h.2

theorem foldl_indexAdd_keys_nodup (v : SentencePart) :
    ∀ (acs : List String) (idx : CatIndex), (indexKeys idx).Nodup →
    (indexKeys (acs.foldl (fun acc ac => indexAdd acc ac v) idx)).Nodup := by
  intro acs
  induction acs with
  | nil =>
    intro idx h
    exact h
  | cons a rest ih =>
    intro idx h
    exact ih _ (indexKeys_indexAdd_nodup a v h)

theorem insertVariant_keys_nodup (category txt : String) (opts acs : List String)
    {idx : CatIndex} (h : (indexKeys idx).Nodup) :
    (indexKeys (insertVariant category txt opts acs idx)).Nodup := by
  rw [insertVariant]
  exact foldl_indexAdd_keys_nodup _ acs _ (indexKeys_indexAdd_nodup category _ h)

theorem insertVariants_keys_nodup (category : String) :
    ∀ (triples : List (String × List String × List String)) (idx : CatIndex),
    (indexKeys idx).Nodup →
    (indexKeys (insertVariants category triples idx)).Nodup := by
  intro triples
  induction triples with
  | nil =>
    intro idx h
    exact h
  | cons t rest ih =>
    intro idx h
    obtain ⟨t1, t2, t3⟩ := t
    rw [insertVariants]
    exact ih _ (insertVariant_keys_nodup category t1 t2 t3 h)

theorem buildIndexes_keys_nodup :
    ∀ {es : List Entry} {tbl : FlagTable} {L R L' R' : CatIndex},
    buildIndexes tbl es L R = Except.ok (L', R') →
    (indexKeys L).Nodup → (indexKeys R).Nodup →
    (indexKeys L').Nodup ∧ (indexKeys R').Nodup := by
  intro es
  induction es with
  | nil =>
    intro tbl L R L' R' h hL hR
    rw [buildIndexes] at h
    have h2 := Except.ok.inj h
    rw [Prod.mk.injEq] at h2
    rw [← h2.1, ← h2.2]
    exact ⟨hL, hR⟩
  | cons e rest ih =>
    intro tbl L R L' R' h hL hR
    rw [buildIndexes] at h
    cases hbe : buildEntry tbl e L R with
    | error er =>
      rw [hbe] at h
      exact absurd h (by simp)
    | ok LR1 =>
      rw [hbe] at h
      rw [buildEntry] at hbe
      cases hblo : resolveAll tbl (e.lefts_flags.getD (defaultsFor e.lefts)) with
      | error er =>
        rw [hblo] at hbe
        exact absurd hbe (by simp)
      | ok lo =>
        rw [hblo] at hbe
        cases hbro : resolveAll tbl (e.rights_flags.getD (defaultsFor e.rights)) with
        | error er =>
          rw [hbro] at hbe
          exact absurd hbe (by simp)
        | ok ro =>
          rw [hbro] at hbe
          have hLR := Except.ok.inj hbe
          refine ih h ?_ ?_
          · rw [← hLR]
            exact insertVariants_keys_nodup _ _ _ hL
          · rw [← hLR]
            exact insertVariants_keys_nodup _ _ _ hR

theorem pySortedStr_perm_congr {l1 l2 : List String} (h : l1.Perm l2) :
    pySortedStr l1 = pySortedStr l2 :=
  sorted_unique strLe_antisymm
    ((pySortedStr_perm l1).trans (h.trans (pySortedStr_perm l2).symm))
    (pySortedStr_sorted l1) (pySortedStr_sorted l2)

theorem union_keys_eq {kL kR : List String} (hR : kR.Nodup) :
    pySortedStr ((kL ++ kR).dedup) = spec_ascending (kL.union kR) := by
  rw [spec_ascending_eq]
  apply pySortedStr_perm_congr
  show (kL ++ kR).dedup.Perm (kL ∪ kR)
  rw [List.perm_ext_iff_of_nodup (List.nodup_dedup _) (List.Nodup.union kL hR)]
  intro a
  rw [List.mem_dedup, List.mem_append]
  exact (List.mem_union_iff).symm

/-- C1: the per-category production section the Rule Synthesizer emits for
an index built from a grammar spec is exactly the specification's: one
production per populated role for precisely the categories in the union of
the two key sets, in ascending category order, with alternatives sorted by
text then options, `":"` before the first alternative and `"|"` before each
later one, and guard tokens in ascending option order. -/
theorem C1_rule_synthesizer_productions (tbl : FlagTable) (entries : List Entry)
    (L R : CatIndex) (hb : buildIndexes tbl entries [] [] = Except.ok (L, R)) :
    category_section L R = spec_category_section L R := by
  have hkeys := buildIndexes_keys_nodup hb List.nodup_nil List.nodup_nil
  rw [category_section, spec_category_section, ← union_keys_eq hkeys.2]
  rw [show (fun category =>
        production_lines category "left" (indexGet L category) ++
        production_lines category "right" (indexGet R category)) =
      (fun c =>
        (match indexGet L c with
         | some s => spec_production c "left" s
         | none => []) ++
        (match indexGet R c with
         | some s => spec_production c "right" s
         | none => [])) from
    funext (fun c => by
      rw [production_pointwise c "left" (indexGet L c),
        production_pointwise c "right" (indexGet R c)])]

/-- Witness for C1_rule_synthesizer_productions at the index built from the
end-to-end example spec. -/
theorem C1_witness :
    buildIndexes [("f", "formal")] toml_example_spec.entries [] [] =
      Except.ok (example_index_lefts, example_index_rights) ∧
    category_section example_index_lefts example_index_rights =
      spec_category_section example_index_lefts example_index_rights :=
  ⟨rfl,
   C1_rule_synthesizer_productions [("f", "formal")] toml_example_spec.entries
     example_index_lefts example_index_rights rfl⟩
